import Mathlib

/-!
# Verification of the doc_matrix backend services

A shallow embedding, in Lean 4, of the business services of the
`doc_matrix` repository (`backend/app/services/*.py`), together with
theorems that settle the specification claims about them.

Conventions used throughout:

* Python `str` values are Lean `String`s; character-level operations
  (`str.find`, `str.replace(old, new, 1)`, slicing, `str.lower`,
  `str.strip`, `str.endswith`) are embedded as executable functions on
  `List Char` and wrapped for `String`.
* Python `dict`s whose insertion order matters are embedded as
  association lists with Python's update semantics (assignment to an
  existing key replaces the value in place, a new key is appended).
* Python `float` file-modification times are embedded as `Int`: the
  code only ever compares them for equality.
* Raising an exception is embedded as `Except String`; a `try/except`
  block handles the `.error` case exactly where the Python code
  catches.
* Network calls (the OpenRouter completion API) and file-format
  libraries (PyPDF2 page texts, csv rows, docx paragraphs, xlsx sheets)
  are the boundary of the embedding: their outputs are inputs of the
  embedded functions.
-/

namespace DocMatrix

/-! ## Character-list helpers (Python string primitives) -/

/-- Python `str.find(sub)` on character lists: index of the first
occurrence of `needle` as a contiguous sublist, or `none` (`-1`). -/
def listFind : List Char → List Char → Option Nat
  | hay, needle =>
    match hay with
    | [] => if needle.isEmpty then some 0 else none
    | _ :: t =>
      if needle.isPrefixOf hay then some 0
      else (listFind t needle).map (· + 1)

/-- Python `str.find`. -/
def pyFind (s sub : String) : Option Nat :=
  listFind s.data sub.data

/-- Python `s.replace(old, new, 1)`: replace the first occurrence only
(no occurrence: unchanged). -/
def listReplaceFirst (s old new : List Char) : List Char :=
  match listFind s old with
  | some i => s.take i ++ new ++ s.drop (i + old.length)
  | none => s

/-- Python `s.replace(old, new, 1)` on `String`. -/
def pyReplaceFirst (s old new : String) : String :=
  ⟨listReplaceFirst s.data old.data new.data⟩

/-- Python `str.lower` (ASCII is all the repo ever compares). -/
def pyLower (s : String) : String :=
  ⟨s.data.map Char.toLower⟩

/-- Python `s[:n]` for `n ≥ 0`. -/
def pyTake (n : Nat) (s : String) : String :=
  ⟨s.data.take n⟩

/-- Python `s[a:b]` for non-negative bounds (the only shape the
embedded call sites produce). -/
def pySlice (s : String) (a b : Nat) : String :=
  ⟨(s.data.drop a).take (b - a)⟩

/-- The characters Python's `str.strip` / `\s` treat as whitespace. -/
def isPyWs (c : Char) : Bool :=
  c = ' ' || c = '\t' || c = '\n' || c = '\r' || c = '\x0b' || c = '\x0c'

/-- Python `str.strip()`. -/
def pyStrip (s : String) : String :=
  ⟨(s.data.dropWhile isPyWs).reverse.dropWhile isPyWs |>.reverse⟩

/-- Python `s.endswith(t)`. -/
def pyEndsWith (s t : String) : Bool :=
  t.data.isSuffixOf s.data

/-- Python `sub in s` (substring containment). -/
def pyContains (s sub : String) : Bool :=
  (pyFind s sub).isSome

/-- Last index of `c` in `hay` (Python `str.rfind`). -/
def lastIdxOf (hay : List Char) (c : Char) : Option Nat :=
  hay.enum.foldl (fun acc p => if p.2 = c then some p.1 else acc) none

/-! ## Insertion-ordered dictionaries (Python `dict`) -/

/-- Lookup, first binding wins (an embedded dict never holds duplicate
keys). -/
def dictGet {α : Type} (m : List (String × α)) (k : String) : Option α :=
  (m.find? (fun p => p.1 = k)).map (·.2)

/-- Python `d[k] = v`: replace in place if the key exists, else append. -/
def dictSet {α : Type} (m : List (String × α)) (k : String) (v : α) :
    List (String × α) :=
  if m.any (fun p => p.1 = k) then
    m.map (fun p => if p.1 = k then (k, v) else p)
  else m ++ [(k, v)]

/-- Python `d.pop(k, None)` (as far as the resulting dict goes). -/
def dictPop {α : Type} (m : List (String × α)) (k : String) :
    List (String × α) :=
  m.filter (fun p => ¬ p.1 = k)

/-! ## Core data structures (`project.py`, `citations.py`, `documents.py`) -/

/-- A `page` value: PDF/text pages are ints, spreadsheet pages resolve
to their sheet name (`find_text_location` falls back through
`page.get("page", page.get("sheet_name", 1))`). -/
inductive PageVal where
  | int (n : Int)
  | str (s : String)
deriving DecidableEq, Repr

/-- One entry of an Extraction Record's `pages` list.  The optional
`pageNum`/`sheetName` reflect which keys the producing extractor put in
the page dictionary. -/
structure Span where
  pageNum : Option Int := none
  sheetName : Option String := none
  text : String := ""
  char_start : Nat := 0
  char_end : Nat := 0
deriving DecidableEq, Repr

/-- The Extraction Record (`text_cache/<filename>.json`).  Python dicts
have optional keys; fields a given extractor does not write are `none`. -/
structure ExtractionRecord where
  text : String := ""
  pages : List Span := []
  char_count : Nat := 0
  page_count : Option Nat := none
  row_count : Option Nat := none
  paragraph_count : Option Nat := none
  sheet_count : Option Nat := none
  extraction_method : Option String := none
  extraction_version : Option String := none
  position_mappings : Option (List Nat) := none
  mtime : Option Int := none
  filename : Option String := none
deriving DecidableEq, Repr

/-- `citations.Citation` (dataclass defaults reproduced). -/
structure Citation where
  id : String
  source_file : String
  text : String
  page : PageVal
  char_start : Nat
  char_end : Nat
  context : String := ""
  extraction_version : String := "1.0"
  extraction_method : String := "pypdf2_basic"
  pdf_mapping : Option String := none
deriving DecidableEq, Repr

/-- `citations.ParsedResponse`. -/
structure ParsedResponse where
  text : String
  citations : List Citation := []
  raw_text : String := ""
deriving DecidableEq, Repr

/-- `project.Column`. -/
structure Column where
  id : String
  question : String
  created_at : String := ""
deriving DecidableEq, Repr

/-- `project.CellResult`. -/
structure CellResult where
  answer : String
  citations : List Citation
  model : String
  timestamp : String
  status : String := "completed"
  error : Option String := none
deriving DecidableEq, Repr

/-- `project.ProjectConfig`. -/
structure ProjectConfig where
  name : String
  created_at : String
  updated_at : String
  execution_mode : String := "parallel"
  model : String := "gpt-5.2"
  columns : List Column := []
  total_input_tokens : Nat := 0
  total_output_tokens : Nat := 0
deriving DecidableEq, Repr

/-- `project.ProjectResults`. -/
structure ProjectResults where
  cells : List (String × CellResult) := []
  row_summaries : List (String × CellResult) := []
  column_summaries : List (String × CellResult) := []
  overall_summary : Option CellResult := none
deriving DecidableEq, Repr

/-- The cell key `f"{filename}:{column_id}"`. -/
def cellKey (filename column_id : String) : String :=
  filename ++ ":" ++ column_id

/-- `ProjectResults.set_cell`. -/
def setCell (r : ProjectResults) (filename column_id : String)
    (result : CellResult) : ProjectResults :=
  { r with cells := dictSet r.cells (cellKey filename column_id) result }

/-- `ProjectResults.get_cell`. -/
def getCell (r : ProjectResults) (filename column_id : String) :
    Option CellResult :=
  dictGet r.cells (cellKey filename column_id)

/-! ## Project Manager (`project.py`)

The per-project on-disk state: `config.json` and `results.json` are
each read through `StorageManager.read_json`, which returns no value
both for a missing file and for malformed JSON, so each file is
embedded as an `Option` (`none` = missing project folder, missing file,
or unreadable file).  `write_json` creates all parent directories, so a
write always succeeds. -/

structure ProjectStore where
  configFile : Option ProjectConfig := none
  resultsFile : Option ProjectResults := none
deriving DecidableEq, Repr

/-- `ProjectManager.save_cell_result`: read-modify-write of
`results.json`; a missing or unreadable file falls back to a fresh
`ProjectResults()`. -/
def save_cell_result (resultsFile : Option ProjectResults)
    (filename column_id : String) (result : CellResult) : ProjectResults :=
  let results := resultsFile.getD {}
  setCell results filename column_id result

/-- `ProjectManager.save_row_summary`. -/
def save_row_summary (resultsFile : Option ProjectResults)
    (filename : String) (result : CellResult) : ProjectResults :=
  let results := resultsFile.getD {}
  { results with row_summaries := dictSet results.row_summaries filename result }

/-- `ProjectManager.save_column_summary`. -/
def save_column_summary (resultsFile : Option ProjectResults)
    (column_id : String) (result : CellResult) : ProjectResults :=
  let results := resultsFile.getD {}
  { results with column_summaries := dictSet results.column_summaries column_id result }

/-- `ProjectManager.save_overall_summary`. -/
def save_overall_summary (resultsFile : Option ProjectResults)
    (result : CellResult) : ProjectResults :=
  let results := resultsFile.getD {}
  { results with overall_summary := some result }

/-- `ProjectManager.update_column`.  Returns the project store after the
call (unchanged when the call raises) together with the outcome.
`now` stands for `datetime.utcnow().isoformat() + "Z"`. -/
def update_column (store : ProjectStore) (column_id question now : String) :
    ProjectStore × Except String Column :=
  match store.configFile with
  | none => (store, .error "Project not found")
  | some config =>
    if config.columns.any (fun c => c.id = column_id) then
      -- the for-loop mutates the first matching column in place,
      -- then the config (with a fresh updated_at) is saved
      let cols := config.columns.map
        (fun c => if c.id = column_id then { c with question := question } else c)
      let config' := { config with columns := cols, updated_at := now }
      match cols.find? (fun c => c.id = column_id) with
      | some col => ({ store with configFile := some config' }, .ok col)
      | none => ({ store with configFile := some config' },
                 .error ("Column '" ++ column_id ++ "' not found"))
    else
      -- the for-else clause raises before any write
      (store, .error ("Column '" ++ column_id ++ "' not found"))

/-- `ProjectManager.delete_column`: drops the column from the config,
then prunes from the results every cell whose key ends with
`":<column_id>"` and the column's summary. -/
def delete_column (store : ProjectStore) (column_id now : String) :
    ProjectStore × Except String Unit :=
  match store.configFile with
  | none => (store, .error "Project not found")
  | some config =>
    let config' := { config with
      columns := config.columns.filter (fun c => ¬ c.id = column_id),
      updated_at := now }
    let store' := { store with configFile := some config' }
    match store.resultsFile with
    | none => (store', .ok ())
    | some results =>
      let results' := { results with
        cells := results.cells.filter
          (fun p => ¬ pyEndsWith p.1 (":" ++ column_id)),
        column_summaries := dictPop results.column_summaries column_id }
      ({ store' with resultsFile := some results' }, .ok ())

/-- The Python dict comprehension `{c.id: c for c in config.columns}`:
later duplicates overwrite the value but keep the first key position. -/
def colMapOf (columns : List Column) : List (String × Column) :=
  columns.foldl (fun m c => dictSet m c.id c) []

/-- `ProjectManager.reorder_columns`: the rebuilt column list (the
config is then saved with it). -/
def reorder_columns (columns : List Column) (column_ids : List String) :
    List Column :=
  column_ids.filterMap (fun cid => dictGet (colMapOf columns) cid) ++
    ((colMapOf columns).filter
      (fun p => ¬ column_ids.contains p.1)).map (·.2)

/-! ## Document access for parser-level operations (`documents.py`)

`find_text_location`, `get_context_around` and the citation parser call
`DocumentProcessor.get_document_text(filename)` on documents that do
not change during the call, so every call returns the same Extraction
Record (a cache hit, or an identical recomputation); a missing file
raises `FileNotFoundError`.  These operations therefore see the
processor as a pure lookup from filename to record. -/

def DocEnv := List (String × ExtractionRecord)

/-- `get_document_text` as seen by the parser layer. -/
def getDocument (env : DocEnv) (filename : String) :
    Except String ExtractionRecord :=
  match dictGet env filename with
  | some rec => .ok rec
  | none => .error ("Document not found: " ++ filename)

/-- `DocumentProcessor.get_context_around`, given the document's cached
record.  `char_start - context_chars` is Python `max(0, ...)` clamping
(the call sites pass non-negative offsets, so `Nat` subtraction
coincides). -/
def get_context_around (rec : ExtractionRecord)
    (char_start char_end context_chars : Nat) : String :=
  let full := rec.text
  let context_start := char_start - context_chars
  let context_end := min full.length (char_end + context_chars)
  let pre := if 0 < context_start then "..." else ""
  let suf := if context_end < full.length then "..." else ""
  pre ++ pySlice full context_start context_end ++ suf

/-- `get_context_around` from the filename, through
`get_document_text`. -/
def get_context_around_doc (env : DocEnv) (filename : String)
    (char_start char_end context_chars : Nat) : Except String String :=
  (getDocument env filename).map
    (fun rec => get_context_around rec char_start char_end context_chars)

/-! ## `DocumentProcessor.find_text_location` (`documents.py`) -/

/-- The value returned by `find_text_location`. -/
structure TextLocation where
  filename : String
  page : PageVal
  char_start : Nat
  char_end : Nat
  text : String
deriving DecidableEq, Repr

/-- `page.get("page", page.get("sheet_name", 1))`. -/
def spanPage (sp : Span) : PageVal :=
  match sp.pageNum with
  | some n => .int n
  | none =>
    match sp.sheetName with
    | some nm => .str nm
    | none => .int 1

/-- The first page span containing `pos` (`char_start <= pos < char_end`),
defaulting to page 1. -/
def pageForPos (pages : List Span) (pos : Nat) : PageVal :=
  match pages.find? (fun sp => sp.char_start ≤ pos ∧ pos < sp.char_end) with
  | some sp => spanPage sp
  | none => .int 1

/-- The positional-citation page lookup (`page_info.get("page", 1)` —
no sheet-name fallback on this path). -/
def pageForPosNum (pages : List Span) (pos : Nat) : Int :=
  match pages.find? (fun sp => sp.char_start ≤ pos ∧ pos < sp.char_end) with
  | some sp => sp.pageNum.getD 1
  | none => 1

/-- `DocumentProcessor.find_text_location`: exact search, then
case-insensitive fallback; `None` when not found; raises when the
document is missing. -/
def find_text_location (env : DocEnv) (filename search_text : String) :
    Except String (Option TextLocation) :=
  match getDocument env filename with
  | .error e => .error e
  | .ok doc =>
    let full := doc.text
    let startPos :=
      match pyFind full search_text with
      | some i => some i
      | none => pyFind (pyLower full) (pyLower search_text)
    match startPos with
    | none => .ok none
    | some start_pos =>
      .ok (some { filename := filename, page := pageForPos doc.pages start_pos,
                  char_start := start_pos,
                  char_end := start_pos + search_text.length,
                  text := search_text })

/-! ## Citation marker matchers (`citations.py` regexes)

`QUOTE_PATTERN = \[\[cite:"([^"]+)"\]\]` and
`POSITION_PATTERN = \[\[cite:(\d+):(\d+)\]\]`, both `re.IGNORECASE`,
iterated with `finditer` (leftmost, non-overlapping).  Neither
character class can cross its closing delimiter, so at each position
the regex admits exactly one candidate match, embedded below; the
scanners advance one character on failure and past the match on
success, exactly like `finditer`. -/

/-- Case-insensitive literal match of `pat` at the head of `s`; returns
the remaining input. -/
def ciConsume : List Char → List Char → Option (List Char)
  | [], s => some s
  | _ :: _, [] => none
  | p :: ps, c :: cs => if p.toLower = c.toLower then ciConsume ps cs else none

/-- The literal `[[cite:` head common to all markers. -/
def citeHead : List Char := ['[', '[', 'c', 'i', 't', 'e', ':']

/-- Python `int` of a nonempty digit string. -/
def digitsToNat (ds : List Char) : Nat :=
  ds.foldl (fun n c => 10 * n + (c.toNat - 48)) 0

/-- Match `[[cite:"<nonempty non-quote>"]]` at the head of `s`:
`(whole match, quoted group, rest of input)`. -/
def quoteMatchAt (s : List Char) : Option (List Char × List Char × List Char) :=
  match ciConsume citeHead s with
  | none => none
  | some r1 =>
    match r1 with
    | '"' :: r2 =>
      let grp := r2.takeWhile (fun c => ¬ c = '"')
      if grp.isEmpty then none
      else
        match r2.drop grp.length with
        | '"' :: ']' :: ']' :: rest =>
          some (s.take (s.length - rest.length), grp, rest)
        | _ => none
    | _ => none

/-- Match `[[cite:<digits>:<digits>]]` at the head of `s`:
`(whole match, start, end, rest of input)`. -/
def posMatchAt (s : List Char) :
    Option (List Char × Nat × Nat × List Char) :=
  match ciConsume citeHead s with
  | none => none
  | some r1 =>
    let d1 := r1.takeWhile Char.isDigit
    if d1.isEmpty then none
    else
      match r1.drop d1.length with
      | ':' :: r2 =>
        let d2 := r2.takeWhile Char.isDigit
        if d2.isEmpty then none
        else
          match r2.drop d2.length with
          | ']' :: ']' :: rest =>
            some (s.take (s.length - rest.length), digitsToNat d1,
                  digitsToNat d2, rest)
          | _ => none
      | _ => none

/-- `finditer` scan for quoted markers.  A successful match consumes at
least one character, so `fuel = s.length` never runs out. -/
def findQuoteMatchesGo : Nat → List Char → List (String × String)
  | 0, _ => []
  | _, [] => []
  | fuel + 1, s@(_ :: t) =>
    match quoteMatchAt s with
    | some (whole, grp, rest) => (⟨whole⟩, ⟨grp⟩) :: findQuoteMatchesGo fuel rest
    | none => findQuoteMatchesGo fuel t

/-- All quoted-citation matches of a string, in order:
`(whole marker, quoted text)`. -/
def findQuoteMatches (s : String) : List (String × String) :=
  findQuoteMatchesGo s.data.length s.data

/-- `finditer` scan for positional markers. -/
def findPosMatchesGo : Nat → List Char → List (String × Nat × Nat)
  | 0, _ => []
  | _, [] => []
  | fuel + 1, s@(_ :: t) =>
    match posMatchAt s with
    | some (whole, a, b, rest) => (⟨whole⟩, a, b) :: findPosMatchesGo fuel rest
    | none => findPosMatchesGo fuel t

/-- All positional-citation matches of a string, in order:
`(whole marker, start_char, end_char)`. -/
def findPosMatches (s : String) : List (String × Nat × Nat) :=
  findPosMatchesGo s.data.length s.data

/-! ## `CitationParser.parse_response` (`citations.py`) -/

/-- `_get_extraction_metadata`: `(extraction_method, extraction_version)`
from the document's cached record, with defaults on any failure. -/
def getExtractionMetadata (env : DocEnv) (source_file : String) :
    String × String :=
  match getDocument env source_file with
  | .ok doc => (doc.extraction_method.getD "pypdf2_basic",
                doc.extraction_version.getD "1.0")
  | .error _ => ("pypdf2_basic", "1.0")

/-- The loop state of `parse_response`: citations so far, the
progressively substituted text, and the shared 1-based counter. -/
structure ParseState where
  citations : List Citation := []
  text : String := ""
  counter : Nat := 1
deriving DecidableEq, Repr

/-- The `Citation` built for one quoted marker: resolved through
`find_text_location` (with a 150-character context window), or the
page-0 "unverified" citation; a missing document propagates the
`find_text_location` exception. -/
def mkQuoteCitation (env : DocEnv) (source_file em ev : String) (k : Nat)
    (quoted : String) : Except String Citation :=
  match find_text_location env source_file quoted with
  | .error e => .error e
  | .ok (some loc) =>
    match get_context_around_doc env source_file loc.char_start loc.char_end 150 with
    | .error e => .error e
    | .ok context =>
      .ok { id := "cite_" ++ toString k, source_file := source_file,
            text := quoted, page := loc.page, char_start := loc.char_start,
            char_end := loc.char_end, context := context,
            extraction_version := ev, extraction_method := em }
  | .ok none =>
    .ok { id := "cite_" ++ toString k, source_file := source_file,
          text := quoted, page := .int 0, char_start := 0, char_end := 0,
          context := "[Unverified quote: " ++ pyTake 50 quoted ++ "...]",
          extraction_version := ev, extraction_method := em }

/-- One iteration of the quoted-citation loop. -/
def quoteStep (env : DocEnv) (source_file em ev : String)
    (st : ParseState) (m : String × String) : Except String ParseState :=
  match mkQuoteCitation env source_file em ev st.counter m.2 with
  | .error e => .error e
  | .ok cit =>
    .ok { citations := st.citations ++ [cit],
          text := pyReplaceFirst st.text m.1 ("[" ++ toString st.counter ++ "]"),
          counter := st.counter + 1 }

/-- The `Citation` built for one positional marker `[[cite:a:b]]`:
the marker's offsets are copied verbatim into
`char_start`/`char_end`; the `try/except` around the body turns a
missing document into the page-0 `"[Unable to resolve citation]"`
citation. -/
def mkPosCitation (env : DocEnv) (source_file : String)
    (k mstart mend : Nat) : Citation :=
  match getDocument env source_file with
  | .ok doc =>
    { id := "cite_" ++ toString k, source_file := source_file,
      text := pySlice doc.text mstart mend,
      page := .int (pageForPosNum doc.pages mstart),
      char_start := mstart, char_end := mend,
      context := get_context_around doc mstart mend 150 }
  | .error _ =>
    { id := "cite_" ++ toString k, source_file := source_file,
      text := "[Position " ++ toString mstart ++ ":" ++ toString mend ++ "]",
      page := .int 0, char_start := mstart, char_end := mend,
      context := "[Unable to resolve citation]" }

/-- One iteration of the positional-citation loop (it never raises). -/
def posStep (env : DocEnv) (source_file : String)
    (st : ParseState) (m : String × Nat × Nat) : ParseState :=
  { citations := st.citations ++ [mkPosCitation env source_file st.counter m.2.1 m.2.2],
    text := pyReplaceFirst st.text m.1 ("[" ++ toString st.counter ++ "]"),
    counter := st.counter + 1 }

/-- `CitationParser.parse_response`: quoted markers first (scanned on
the original text), then positional markers (scanned on the
already-substituted text), sharing one counter. -/
def parse_response (env : DocEnv) (response_text source_file : String) :
    Except String ParsedResponse :=
  let md := getExtractionMetadata env source_file
  let ini : ParseState := { citations := [], text := response_text, counter := 1 }
  match (findQuoteMatches response_text).foldlM
      (quoteStep env source_file md.1 md.2) ini with
  | .error e => .error e
  | .ok st1 =>
    let st2 := (findPosMatches st1.text).foldl (posStep env source_file) st1
    .ok { text := st2.text, citations := st2.citations,
          raw_text := response_text }

/-! ## `CitationParser.parse_multi_document_response` (`citations.py`) -/

/-- Match `[[cite:<non-colon fragment>:"<quote>"]]` at the head of `s`:
`(whole, filename fragment, quote, rest)`. -/
def multiMatchAt (s : List Char) :
    Option (List Char × List Char × List Char × List Char) :=
  match ciConsume citeHead s with
  | none => none
  | some r1 =>
    let g1 := r1.takeWhile (fun c => ¬ c = ':')
    if g1.isEmpty then none
    else
      match r1.drop g1.length with
      | ':' :: '"' :: r2 =>
        let g2 := r2.takeWhile (fun c => ¬ c = '"')
        if g2.isEmpty then none
        else
          match r2.drop g2.length with
          | '"' :: ']' :: ']' :: rest =>
            some (s.take (s.length - rest.length), g1, g2, rest)
          | _ => none
      | _ => none

/-- `finditer` scan for multi-document markers. -/
def findMultiMatchesGo : Nat → List Char → List (String × String × String)
  | 0, _ => []
  | _, [] => []
  | fuel + 1, s@(_ :: t) =>
    match multiMatchAt s with
    | some (whole, g1, g2, rest) =>
      (⟨whole⟩, ⟨g1⟩, ⟨g2⟩) :: findMultiMatchesGo fuel rest
    | none => findMultiMatchesGo fuel t

/-- All multi-document matches: `(whole, fragment, quote)`. -/
def findMultiMatches (s : String) : List (String × String × String) :=
  findMultiMatchesGo s.data.length s.data

/-- The filename-fragment match: case-insensitive substring containment
in either direction, else the first candidate, else the fragment
itself. -/
def matchSourceFile (source_files : List String) (fragment : String) : String :=
  match source_files.find? (fun sf =>
      pyContains (pyLower sf) (pyLower fragment) ||
      pyContains (pyLower fragment) (pyLower sf)) with
  | some sf => sf
  | none =>
    match source_files with
    | sf :: _ => sf
    | [] => fragment

/-- The `Citation` built for one multi-document marker (the
surrounding `try/except` turns any failure into the
`"[Unable to resolve]"` citation attributed to the stripped fragment). -/
def mkMultiCitation (env : DocEnv) (source_files : List String) (k : Nat)
    (fragment quoted : String) : Citation :=
  let fragmentS := pyStrip fragment
  let matched_file := matchSourceFile source_files fragmentS
  let onExc : Citation :=
    { id := "cite_" ++ toString k, source_file := fragmentS, text := quoted,
      page := .int 0, char_start := 0, char_end := 0,
      context := "[Unable to resolve]" }
  match find_text_location env matched_file quoted with
  | .ok (some loc) =>
    match get_context_around_doc env matched_file loc.char_start loc.char_end 150 with
    | .ok context =>
      { id := "cite_" ++ toString k, source_file := matched_file,
        text := quoted, page := loc.page, char_start := loc.char_start,
        char_end := loc.char_end, context := context }
    | .error _ => onExc
  | .ok none =>
    { id := "cite_" ++ toString k, source_file := matched_file, text := quoted,
      page := .int 0, char_start := 0, char_end := 0,
      context := "[Unverified: " ++ pyTake 50 quoted ++ "...]" }
  | .error _ => onExc

/-- One iteration of the multi-document loop. -/
def multiStep (env : DocEnv) (source_files : List String)
    (st : ParseState) (m : String × String × String) : ParseState :=
  { citations := st.citations ++ [mkMultiCitation env source_files st.counter m.2.1 m.2.2],
    text := pyReplaceFirst st.text m.1 ("[" ++ toString st.counter ++ "]"),
    counter := st.counter + 1 }

/-- `CitationParser.parse_multi_document_response`: multi-document
markers first, then the single-document algorithm over the substituted
text against the first source file (its nested counter restarts at 1),
citations concatenated. -/
def parse_multi_document_response (env : DocEnv) (response_text : String)
    (source_files : List String) : Except String ParsedResponse :=
  let st1 := (findMultiMatches response_text).foldl (multiStep env source_files)
    { citations := [], text := response_text, counter := 1 }
  match parse_response env st1.text
      (match source_files with | sf :: _ => sf | [] => "unknown") with
  | .error e => .error e
  | .ok single =>
    .ok { text := single.text, citations := st1.citations ++ single.citations,
          raw_text := response_text }

/-! ## `CitationParser.aggregate_citations` (`citations.py`) -/

/-- The dedup key `f"{citation.source_file}:{citation.text[:50]}"`. -/
def aggKey (c : Citation) : String :=
  c.source_file ++ ":" ++ pyTake 50 c.text

/-- The fresh `Citation(...)` built for each kept first occurrence: only
the positional fields are carried over, so extraction metadata and
`pdf_mapping` revert to the dataclass defaults. -/
def aggRenumber (idx : Nat) (c : Citation) : Citation :=
  { id := "cite_" ++ toString idx, source_file := c.source_file,
    text := c.text, page := c.page, char_start := c.char_start,
    char_end := c.char_end, context := c.context }

/-- One iteration of the dedup loop: state is (keys of `citation_map`
in insertion order, `all_citations`). -/
def aggStep (st : List String × List Citation) (c : Citation) :
    List String × List Citation :=
  if st.1.contains (aggKey c) then st
  else (st.1 ++ [aggKey c], st.2 ++ [aggRenumber (st.2.length + 1) c])

/-- `CitationParser.aggregate_citations`. -/
def aggregate_citations (responses : List ParsedResponse) : List Citation :=
  (responses.foldl (fun st r => r.citations.foldl aggStep st) ([], [])).2

/-- Written from the spec's words: keep the first occurrence of each
key, in encounter order. -/
def specDedupKeys (seen : List String) : List Citation → List Citation
  | [] => []
  | c :: rest =>
    if seen.contains (aggKey c) then specDedupKeys seen rest
    else c :: specDedupKeys (seen ++ [aggKey c]) rest

/-- Written from the spec's words: renumber sequentially as
`cite_n, cite_n+1, ...`. -/
def specRenumber (n : Nat) : List Citation → List Citation
  | [] => []
  | c :: rest => aggRenumber n c :: specRenumber (n + 1) rest

/-- Written from the spec's words: deduplicate the concatenated
citation lists by `"<source_file>:<first 50 chars>"`, first occurrence
kept in encounter order, renumbered `cite_1, cite_2, ...`. -/
def specAggregate (cs : List Citation) : List Citation :=
  specRenumber 1 (specDedupKeys [] cs)

/-! ## `DocumentProcessor.get_document_text` (`documents.py`)

The filesystem and the format libraries are the embedding boundary: a
`DiskFile` carries a document's modification time and what the
libraries deliver for it (the decoded text for `.txt/.md/.json`, the
parsed csv rows, PyPDF2's per-page raw texts, python-docx's paragraph
and table-cell texts, openpyxl's per-sheet cell values — with `str()`
already applied, `none` for empty cells — and, for `.json`, the
pretty-printed `json.dumps(json.loads(...))` output, `none` when the
content does not parse). -/

/-- Python `sep.join(xs)`. -/
def joinSep (sep : String) : List String → String
  | [] => ""
  | [x] => x
  | x :: y :: rest => x ++ sep ++ joinSep sep (y :: rest)

/-- `re.sub(r" +", " ", ...)`: collapse runs of spaces.  The flag
records whether the previously emitted character was a space. -/
def collapseSpacesGo : Bool → List Char → List Char
  | _, [] => []
  | true, ' ' :: rest => collapseSpacesGo true rest
  | false, ' ' :: rest => ' ' :: collapseSpacesGo true rest
  | _, c :: rest => c :: collapseSpacesGo false rest

/-- Index of the last `'\n'` inside the maximal leading whitespace run
of `l`. -/
def lastNlInRun (l : List Char) : Option Nat :=
  lastIdxOf (l.takeWhile isPyWs) '\n'

/-- `re.sub(r"\n\s*\n", "\n\n", ...)`: at each `'\n'` whose following
whitespace run contains another `'\n'`, the (greedy, backtracked) match
ends at the last such `'\n'` and is replaced by a blank line; scanning
resumes after the match.  One character is consumed per step, so
`fuel = length` suffices. -/
def nlCollapse : Nat → List Char → List Char
  | 0, _ => []
  | _, [] => []
  | fuel + 1, c :: rest =>
    if c = '\n' then
      match lastNlInRun rest with
      | some k => '\n' :: '\n' :: nlCollapse fuel (rest.drop (k + 1))
      | none => c :: nlCollapse fuel rest
    else c :: nlCollapse fuel rest

/-- `DocumentProcessor._clean_text`: collapse space runs, collapse
whitespace-separated newline pairs to one blank line, strip. -/
def clean_text (s : String) : String :=
  pyStrip ⟨nlCollapse (collapseSpacesGo false s.data).length
    (collapseSpacesGo false s.data)⟩

/-- A document on disk, as the extractors' libraries deliver it. -/
structure DiskFile where
  mtime : Int
  textContent : String := ""
  pdfPageTexts : List String := []
  csvRows : List (List String) := []
  jsonPretty : Option String := none
  docxParagraphs : List String := []
  docxTables : List (List (List String)) := []
  xlsxSheets : List (String × List (List (Option String))) := []
deriving Repr

/-- `pathlib.Path(...).suffix`: the final dot-extension, empty for a
leading or trailing dot. -/
def pathSuffix (name : String) : String :=
  match lastIdxOf name.data '.' with
  | some i =>
    if 0 < i ∧ i < name.data.length - 1 then ⟨name.data.drop i⟩ else ""
  | none => ""

/-- `_extract_text` (`.txt` / `.md`). -/
def extract_text (f : DiskFile) : ExtractionRecord :=
  { text := f.textContent,
    pages := [{ pageNum := some 1, text := f.textContent, char_start := 0,
                char_end := f.textContent.length }],
    char_count := f.textContent.length }

/-- One cell of a csv row line: `headers[j]` or the synthesized
`Col<j>`. -/
def csvCell (headers : List String) (j : Nat) (val : String) : String :=
  (match headers.get? j with
   | some h => h
   | none => "Col" ++ toString j) ++ ": " ++ val

/-- One line of the csv rendering. -/
def csvLine (headers : List String) (i : Nat) (row : List String) : String :=
  if i = 0 then "Headers: " ++ joinSep ", " row
  else "Row " ++ toString i ++ ": " ++
    joinSep "; " (row.enum.map (fun p => csvCell headers p.1 p.2))

/-- `_extract_csv`. -/
def extract_csv (f : DiskFile) : ExtractionRecord :=
  match f.csvRows with
  | [] => { text := "", pages := [], char_count := 0 }
  | rows@(headers :: _) =>
    let text := joinSep "\n" (rows.enum.map (fun p => csvLine headers p.1 p.2))
    { text := text,
      pages := [{ pageNum := some 1, text := text, char_start := 0,
                  char_end := text.length }],
      char_count := text.length, row_count := some rows.length }

/-- `_extract_json`: pretty-printed parse, or the raw content when the
file does not parse. -/
def extract_json (f : DiskFile) : ExtractionRecord :=
  let text := f.jsonPretty.getD f.textContent
  { text := text,
    pages := [{ pageNum := some 1, text := text, char_start := 0,
                char_end := text.length }],
    char_count := text.length }

/-- The pdf page loop: cleaned page texts with their accumulated char
spans (`char_offset += len(page_text) + 1` for the joining newline). -/
def pdfPagesGo (offset i : Nat) : List String → List Span × List String
  | [] => ([], [])
  | t :: rest =>
    let cleaned := clean_text t
    let tail := pdfPagesGo (offset + cleaned.length + 1) (i + 1) rest
    ({ pageNum := some (i + 1), text := cleaned, char_start := offset,
       char_end := offset + cleaned.length } :: tail.1, cleaned :: tail.2)

/-- `_extract_pdf`: per-page extraction via PyPDF2 (raw page texts are
the `DiskFile` input), whitespace normalization per page, newline-joined
combined text.  Note: no `extraction_method`, `extraction_version` or
`position_mappings` fields are produced, and no Position Mapper is
invoked. -/
def extract_pdf (f : DiskFile) : ExtractionRecord :=
  let r := pdfPagesGo 0 0 f.pdfPageTexts
  let combined := joinSep "\n" r.2
  { text := combined, pages := r.1, char_count := combined.length,
    page_count := some r.1.length }

/-- `_extract_docx`: non-blank paragraphs, then per-table rows joining
non-blank stripped cell texts with `" | "`. -/
def extract_docx (f : DiskFile) : ExtractionRecord :=
  let paras := f.docxParagraphs.filter (fun p => ¬ pyStrip p = "")
  let tableRows := f.docxTables.flatMap (fun table =>
    table.filterMap (fun row =>
      let row_text := joinSep " | "
        ((row.map pyStrip).filter (fun c => ¬ c = ""))
      if row_text = "" then none else some row_text))
  let paragraphs := paras ++ tableRows
  let text := joinSep "\n\n" paragraphs
  { text := text,
    pages := [{ pageNum := some 1, text := text, char_start := 0,
                char_end := text.length }],
    char_count := text.length, paragraph_count := some paragraphs.length }

/-- One sheet's text: header line plus the non-blank rows joined with
`" | "` (empty cells render as `""`). -/
def xlsxSheetText (sheet : String × List (List (Option String))) : String :=
  let rows_text := ("=== Sheet: " ++ sheet.1 ++ " ===") ::
    sheet.2.filterMap (fun row =>
      let row_values := row.map (fun c => c.getD "")
      if row_values.any (fun v => ¬ pyStrip v = "") then
        some (joinSep " | " row_values)
      else none)
  joinSep "\n" rows_text

/-- The xlsx sheet loop (`char_offset += len(sheet_text) + 2` for the
blank-line join). -/
def xlsxGo (offset idx : Nat) :
    List (String × List (List (Option String))) → List Span × List String
  | [] => ([], [])
  | sheet :: rest =>
    let sheet_text := xlsxSheetText sheet
    let tail := xlsxGo (offset + sheet_text.length + 2) (idx + 1) rest
    ({ pageNum := some (idx + 1), sheetName := some sheet.1,
       text := sheet_text, char_start := offset,
       char_end := offset + sheet_text.length } :: tail.1,
     sheet_text :: tail.2)

/-- `_extract_xlsx`. -/
def extract_xlsx (f : DiskFile) : ExtractionRecord :=
  let r := xlsxGo 0 0 f.xlsxSheets
  let text := joinSep "\n\n" r.2
  { text := text, pages := r.1, char_count := text.length,
    sheet_count := some r.1.length }

/-- `_get_extractor`. -/
def getExtractor (ext : String) : Option (DiskFile → ExtractionRecord) :=
  if ext = ".txt" then some extract_text
  else if ext = ".md" then some extract_text
  else if ext = ".csv" then some extract_csv
  else if ext = ".json" then some extract_json
  else if ext = ".pdf" then some extract_pdf
  else if ext = ".docx" then some extract_docx
  else if ext = ".xlsx" then some extract_xlsx
  else none

/-- `DocumentProcessor.get_document_text`: missing file raises
`FileNotFoundError`; an unforced cache entry with matching stored
`mtime` is returned verbatim (a missing or unreadable cache file reads
back as no entry); otherwise the extension-dispatched extractor runs,
the record is stamped with `mtime` and `filename`, persisted to the
cache, and returned. -/
def get_document_text (disk : List (String × DiskFile))
    (cache : List (String × ExtractionRecord)) (filename : String)
    (force_refresh : Bool) :
    Except String (ExtractionRecord × List (String × ExtractionRecord)) :=
  match dictGet disk filename with
  | none => .error ("Document not found: " ++ filename)
  | some file =>
    let hit : Option ExtractionRecord :=
      if force_refresh then none
      else
        match dictGet cache filename with
        | some cached =>
          if cached.mtime = some file.mtime then some cached else none
        | none => none
    match hit with
    | some cached => .ok (cached, cache)
    | none =>
      match getExtractor (pyLower (pathSuffix filename)) with
      | none =>
        .error ("Unsupported file type: " ++ pyLower (pathSuffix filename))
      | some extractor =>
        let result :=
          { extractor file with mtime := some file.mtime,
                                filename := some filename }
        .ok (result, dictSet cache filename result)

/-! ## `LLMService.complete_row_wise` response parsing (`llm.py`)

The HTTP `complete` call is the embedding boundary: its returned
`content` string is an input here.  `json.loads` is likewise external
(`decode` parameter); its output is a decoded Python value. -/

/-- A decoded Python/JSON value (the output of `json.loads`). -/
inductive PyVal where
  | str (s : String)
  | int (n : Int)
  | bool (b : Bool)
  | null
  | arr (xs : List PyVal)
  | obj (kvs : List (String × PyVal))
deriving Repr

mutual

/-- Python `repr` (escape sequences inside strings left verbatim). -/
def pyReprVal : PyVal → String
  | .str s => "'" ++ s ++ "'"
  | .int n => toString n
  | .bool b => if b then "True" else "False"
  | .null => "None"
  | .arr xs => "[" ++ reprJoin xs ++ "]"
  | .obj kvs => "\x7b" ++ reprJoinObj kvs ++ "\x7d"

def reprJoin : List PyVal → String
  | [] => ""
  | [x] => pyReprVal x
  | x :: y :: rest => pyReprVal x ++ ", " ++ reprJoin (y :: rest)

def reprJoinObj : List (String × PyVal) → String
  | [] => ""
  | [(k, v)] => "'" ++ k ++ "': " ++ pyReprVal v
  | (k, v) :: p :: rest =>
    "'" ++ k ++ "': " ++ pyReprVal v ++ ", " ++ reprJoinObj (p :: rest)

end

/-- Python `str(...)` of a decoded value (`str` of containers is their
`repr`). -/
def pyStrOf : PyVal → String
  | .str s => s
  | .int n => toString n
  | .bool b => if b then "True" else "False"
  | .null => "None"
  | .arr xs => "[" ++ reprJoin xs ++ "]"
  | .obj kvs => "\x7b" ++ reprJoinObj kvs ++ "\x7d"

/-- Python `k in v` for a string key: dict key lookup, list membership,
substring test on strings; anything else raises `TypeError`. -/
def pyValContains (v : PyVal) (k : String) : Except String Bool :=
  match v with
  | .obj kvs => .ok (kvs.any (fun p => p.1 = k))
  | .arr xs => .ok (xs.any (fun x =>
      match x with
      | .str s => s = k
      | _ => false))
  | .str s => .ok (pyContains s k)
  | _ => .error "TypeError: argument is not iterable"

/-- Python `v[k]` for a string key: only dicts support it. -/
def pyValIndex (v : PyVal) (k : String) : Except String PyVal :=
  match v with
  | .obj kvs =>
    match dictGet kvs k with
    | some x => .ok x
    | none => .error "KeyError"
  | _ => .error "TypeError: indices must be integers"

/-- Python `v.get(key, dflt)`: only dicts have `.get`. -/
def pyValGet (v : PyVal) (k : String) (dflt : PyVal) : Except String PyVal :=
  match v with
  | .obj kvs => .ok ((dictGet kvs k).getD dflt)
  | _ => .error "AttributeError: no attribute get"

/-- The per-question distribution step (`for q in questions:` body).
Present ids pass their answer through (`answer` field of a dict, else
`str(...)` of the bare value), absent ids get the placeholder; a
non-dict `answers` can raise `TypeError` at the membership test or the
indexing. -/
def rowWiseAssign (answers : PyVal) (res : List (String × PyVal))
    (q : String) : Except String (List (String × PyVal)) :=
  match pyValContains answers q with
  | .error e => .error e
  | .ok true =>
    match pyValIndex answers q with
    | .error e => .error e
    | .ok answer_data =>
      match answer_data with
      | .obj kvs => .ok (dictSet res q ((dictGet kvs "answer").getD (.str "")))
      | v => .ok (dictSet res q (.str (pyStrOf v)))
  | .ok false => .ok (dictSet res q (.str "[No answer provided]"))

/-- The spec-level description of one distribution step when `answers`
is a JSON object. -/
def rowWiseAssignSpec (answers : List (String × PyVal))
    (res : List (String × PyVal)) (q : String) : List (String × PyVal) :=
  match dictGet answers q with
  | some (.obj kvs) => dictSet res q ((dictGet kvs "answer").getD (.str ""))
  | some v => dictSet res q (.str (pyStrOf v))
  | none => dictSet res q (.str "[No answer provided]")

/-- `LLMService.complete_row_wise` after the `complete` call returned
`content`: locate the first `\x7b` and the last `\x7d`, JSON-decode the
slice, and distribute `answers[<id>]` per requested question id;
`questions` carries the requested ids.  A `JSONDecodeError` falls back
to the full raw text for every question; when no brace block is found
the (pre-initialized, empty) results dict is returned as is. -/
def rowWiseParse (decode : String → Except Unit PyVal) (content : String)
    (questions : List String) : Except String (List (String × PyVal)) :=
  let json_start : Int :=
    match listFind content.data ['\x7b'] with
    | some i => (i : Int)
    | none => -1
  let json_end : Int :=
    (match lastIdxOf content.data '\x7d' with
     | some i => (i : Int)
     | none => -1) + 1
  if json_start ≥ 0 ∧ json_end > json_start then
    match decode ⟨(content.data.take json_end.toNat).drop json_start.toNat⟩ with
    | .error _ =>
      .ok (questions.foldl (fun res q => dictSet res q (.str content)) [])
    | .ok data =>
      match pyValGet data "answers" (.obj []) with
      | .error e => .error e
      | .ok answers => questions.foldlM (rowWiseAssign answers) []
  else
    .ok []

/-! ## Executor (`executor.py`)

One HTTP request's execution runs on a single-threaded cooperative
scheduler (§5 of the accompanying code's design): every
`save_cell_result` is synchronous file I/O with no suspension point
inside, so each read-modify-write is atomic and a run is a sequence of
cell completions in some order.  The embedding processes cells in
submission order; the claims proved below (final per-key cell results
and the completion count) are the same for every completion order,
because every task increments the count exactly once and writes only
its own key. -/

/-- The `LLMResponse` fields the Executor consumes (`usage` is always a
populated dict, hence always truthy). -/
structure LLMResp where
  content : String
  prompt_tokens : Nat := 0
  completion_tokens : Nat := 0
deriving Repr

/-- The outbound-HTTP boundary of the embedding: outcomes of the four
`LLMService` operations the Executor awaits.  Each is a function of the
inputs that reach the wire (document text, question(s), filename /
summary type and context); `decode` is `json.loads` inside
`complete_row_wise`. -/
structure LLMEnv where
  completeDoc : String → String → String → Except String LLMResp
  completeRowRaw : String → List (String × String) → String → Except String LLMResp
  decode : String → Except Unit PyVal
  genSummary : String → String → Except String LLMResp

/-- `LLMService.complete_row_wise` end to end: the `complete` call,
then the parsing embedded as `rowWiseParse`.  `questions` carries
`(id, question)` pairs; the result maps ids to assigned contents. -/
def complete_row_wise (llm : LLMEnv) (document_text : String)
    (questions : List (String × String)) (filename : String) :
    Except String (List (String × PyVal)) :=
  match llm.completeRowRaw document_text questions filename with
  | .error e => .error e
  | .ok resp => rowWiseParse llm.decode resp.content (questions.map (·.1))

/-- `ProjectManager.add_token_usage`: adds to the totals and stamps
`updated_at`; raises when the config cannot be loaded. -/
def add_token_usage (now : String) (store : ProjectStore)
    (input_tokens output_tokens : Nat) : Except String ProjectStore :=
  match store.configFile with
  | none => .error "Project not found"
  | some config =>
    .ok { store with configFile := some { config with
      total_input_tokens := config.total_input_tokens + input_tokens,
      total_output_tokens := config.total_output_tokens + output_tokens,
      updated_at := now } }

/-- `save_cell_result` against the project store. -/
def storeSaveCell (store : ProjectStore) (filename column_id : String)
    (result : CellResult) : ProjectStore :=
  { store with
    resultsFile :=
      some (save_cell_result store.resultsFile filename column_id result) }

/-- `save_row_summary` against the project store. -/
def storeSaveRow (store : ProjectStore) (filename : String)
    (result : CellResult) : ProjectStore :=
  { store with
    resultsFile := some (save_row_summary store.resultsFile filename result) }

/-- `save_column_summary` against the project store. -/
def storeSaveCol (store : ProjectStore) (column_id : String)
    (result : CellResult) : ProjectStore :=
  { store with
    resultsFile :=
      some (save_column_summary store.resultsFile column_id result) }

/-- `save_overall_summary` against the project store. -/
def storeSaveOverall (store : ProjectStore) (result : CellResult) :
    ProjectStore :=
  { store with
    resultsFile := some (save_overall_summary store.resultsFile result) }

/-- `Executor._process_cell`: the `try` body (extraction, LLM call,
token accrual, citation parsing) collapses to an `error` Cell Result on
any failure; the result is persisted either way.  (`parse_response` can
only fail when the document is missing, which the successful
`getDocument` already rules out, so no post-token-write failure ever
discards the token write.) -/
def process_cell (env : DocEnv) (llm : LLMEnv) (now : String)
    (store : ProjectStore) (filename : String) (column : Column)
    (model : String) : ProjectStore × CellResult :=
  let attempt : Except String (ProjectStore × CellResult) :=
    match getDocument env filename with
    | .error e => .error e
    | .ok doc =>
      match llm.completeDoc doc.text column.question filename with
      | .error e => .error e
      | .ok resp =>
        match add_token_usage now store resp.prompt_tokens resp.completion_tokens with
        | .error e => .error e
        | .ok store1 =>
          match parse_response env resp.content filename with
          | .error e => .error e
          | .ok parsed =>
            .ok (store1, { answer := parsed.text, citations := parsed.citations,
                           model := model, timestamp := now,
                           status := "completed" })
  match attempt with
  | .ok (store1, result) =>
    (storeSaveCell store1 filename column.id result, result)
  | .error e =>
    let result : CellResult :=
      { answer := "", citations := [], model := model, timestamp := now,
        status := "error", error := some e }
    (storeSaveCell store filename column.id result, result)

/-- `ExecutionProgress`. -/
structure ExecutionProgress where
  total_cells : Nat := 0
  completed_cells : Nat := 0
  current_phase : String := "initializing"
  errors : List String := []
deriving DecidableEq, Repr

/-- The parallel-mode per-cell accounting: every awaited task
increments `completed_cells` once (a task only raises if the save
itself fails, which the storage layer's directory-creating write rules
out, so the `except` arm that would append to `errors` is dead). -/
def parallelStep (env : DocEnv) (llm : LLMEnv) (now model : String)
    (acc : ProjectStore × ExecutionProgress) (cell : String × Column) :
    ProjectStore × ExecutionProgress :=
  ((process_cell env llm now acc.1 cell.1 cell.2 model).1,
   { acc.2 with completed_cells := acc.2.completed_cells + 1 })

/-- The shared `try` body of the three summary generators: LLM call,
token accrual, multi-document citation resolution, completed result. -/
def summaryAttempt (env : DocEnv) (llm : LLMEnv) (now : String)
    (store : ProjectStore) (stype ctx : String) (files : List String)
    (model : String) : Except String (ProjectStore × CellResult) :=
  match llm.genSummary stype ctx with
  | .error e => .error e
  | .ok resp =>
    match add_token_usage now store resp.prompt_tokens resp.completion_tokens with
    | .error e => .error e
    | .ok store1 =>
      match parse_multi_document_response env resp.content files with
      | .error e => .error e
      | .ok parsed =>
        .ok (store1, { answer := parsed.text, citations := parsed.citations,
                       model := model, timestamp := now,
                       status := "completed" })

/-- `_generate_row_summary`: gather the document's `completed` cells;
with none, persist the literal no-data result without an LLM call; else
call the LLM, accrue tokens, resolve citations via the multi-document
path over `[filename]`, and persist the summary (an `error` result on
failure). -/
def gen_row_summary (env : DocEnv) (llm : LLMEnv) (now : String)
    (store : ProjectStore) (filename model : String) :
    Except String ProjectStore :=
  match store.configFile with
  | none => .error "Project not found"
  | some config =>
    let results := store.resultsFile.getD {}
    let answers := config.columns.filterMap (fun col =>
      match getCell results filename col.id with
      | some cell =>
        if cell.status = "completed" then
          some (col.question, cell.answer, cell.citations)
        else none
      | none => none)
    if answers.isEmpty then
      .ok (storeSaveRow store filename
        { answer := "No data to summarize.", citations := [], model := model,
          timestamp := now, status := "completed" })
    else
      match summaryAttempt env llm now store "row" filename [filename] model with
      | .ok (store1, result) => .ok (storeSaveRow store1 filename result)
      | .error e =>
        .ok (storeSaveRow store filename
          { answer := "", citations := [], model := model, timestamp := now,
            status := "error", error := some e })

/-- `_generate_column_summary`. -/
def gen_column_summary (env : DocEnv) (llm : LLMEnv) (now : String)
    (documents : List String) (store : ProjectStore)
    (column_id model : String) : Except String ProjectStore :=
  match store.configFile with
  | none => .error "Project not found"
  | some config =>
    let results := store.resultsFile.getD {}
    let question :=
      ((config.columns.find? (fun c => c.id = column_id)).map
        (fun c => c.question)).getD ""
    let gathered := documents.filterMap (fun filename =>
      match getCell results filename column_id with
      | some cell =>
        if cell.status = "completed" then
          some (filename, cell.answer, cell.citations)
        else none
      | none => none)
    if gathered.isEmpty then
      .ok (storeSaveCol store column_id
        { answer := "No data to summarize.", citations := [], model := model,
          timestamp := now, status := "completed" })
    else
      match summaryAttempt env llm now store "column" question
          (gathered.map (·.1)) model with
      | .ok (store1, result) => .ok (storeSaveCol store1 column_id result)
      | .error e =>
        .ok (storeSaveCol store column_id
          { answer := "", citations := [], model := model, timestamp := now,
            status := "error", error := some e })

/-- `_generate_overall_summary`. -/
def gen_overall_summary (env : DocEnv) (llm : LLMEnv) (now : String)
    (documents : List String) (store : ProjectStore) (model : String) :
    Except String ProjectStore :=
  match store.configFile with
  | none => .error "Project not found"
  | some config =>
    let results := store.resultsFile.getD {}
    let rowSums := documents.filterMap (fun filename =>
      match dictGet results.row_summaries filename with
      | some summary =>
        if summary.status = "completed" then some (filename, summary.answer)
        else none
      | none => none)
    let colSums := config.columns.filterMap (fun col =>
      match dictGet results.column_summaries col.id with
      | some summary =>
        if summary.status = "completed" then some (col.question, summary.answer)
        else none
      | none => none)
    let source_files := rowSums.map (·.1)
    if rowSums.isEmpty ∧ colSums.isEmpty then
      .ok (storeSaveOverall store
        { answer := "No data to summarize.", citations := [], model := model,
          timestamp := now, status := "completed" })
    else
      match summaryAttempt env llm now store "overall"
          "all documents and questions"
          (if source_files.isEmpty then ["unknown"] else source_files)
          model with
      | .ok (store1, result) => .ok (storeSaveOverall store1 result)
      | .error e =>
        .ok (storeSaveOverall store
          { answer := "", citations := [], model := model, timestamp := now,
            status := "error", error := some e })

/-- `_generate_summaries`: row summaries per document, then column
summaries per column, then the overall summary. -/
def generate_summaries (env : DocEnv) (llm : LLMEnv) (now : String)
    (config : ProjectConfig) (documents : List String) (model : String)
    (store : ProjectStore) : Except String ProjectStore :=
  match documents.foldlM (fun st d => gen_row_summary env llm now st d model)
      store with
  | .error e => .error e
  | .ok store1 =>
    match config.columns.foldlM
        (fun st c => gen_column_summary env llm now documents st c.id model)
        store1 with
    | .error e => .error e
    | .ok store2 => gen_overall_summary env llm now documents store2 model

/-- `Executor._execute_parallel`: the full cell list (documents ×
columns), folded cell by cell (batches of 10 only group the same
sequence), then the summary barrier, then phase `completed`. -/
def execute_parallel (env : DocEnv) (llm : LLMEnv) (now : String)
    (config : ProjectConfig) (documents : List String) (model : String)
    (store : ProjectStore) :
    Except String (ProjectStore × ExecutionProgress) :=
  let total := documents.length * config.columns.length
  let cells := documents.flatMap (fun d => config.columns.map (fun c => (d, c)))
  let run := cells.foldl (parallelStep env llm now model)
    (store, { total_cells := total, completed_cells := 0,
              current_phase := "processing_cells", errors := [] })
  match generate_summaries env llm now config documents model run.1 with
  | .error e => .error e
  | .ok store2 => .ok (store2, { run.2 with current_phase := "completed" })

/-- The row-wise per-column distribution loop.  It runs inside the
per-document `try`, so an exception part-way (a non-string response
content reaching `parse_response`) keeps the cells saved and counted so
far and surfaces the error to the document-level `except`. -/
def rowWiseColsGo (env : DocEnv) (now model filename : String)
    (responses : List (String × PyVal)) :
    List Column → ProjectStore × Nat → (ProjectStore × Nat) × Option String
  | [], st => (st, none)
  | col :: rest, (store, cnt) =>
    match dictGet responses col.id with
    | some content =>
      match content with
      | .str s =>
        match parse_response env s filename with
        | .error e => ((store, cnt), some e)
        | .ok parsed =>
          rowWiseColsGo env now model filename responses rest
            (storeSaveCell store filename col.id
              { answer := parsed.text, citations := parsed.citations,
                model := model, timestamp := now, status := "completed" },
             cnt + 1)
      | _ => ((store, cnt), some "TypeError: expected string or bytes-like object")
    | none =>
      rowWiseColsGo env now model filename responses rest
        (storeSaveCell store filename col.id
          { answer := "[No response]", citations := [], model := model,
            timestamp := now, status := "error",
            error := some "No response from LLM" },
         cnt + 1)

/-- One document of `_execute_row_wise`: the whole body is one `try`;
any failure appends one aggregate error and counts the document's full
column count as completed (on top of whatever the loop already
counted). -/
def rowWiseDocStep (env : DocEnv) (llm : LLMEnv) (now model : String)
    (columns : List Column) (acc : ProjectStore × ExecutionProgress)
    (filename : String) : ProjectStore × ExecutionProgress :=
  let store := acc.1
  let progress := acc.2
  let failWith (store' : ProjectStore) (cnt : Nat) (e : String) :
      ProjectStore × ExecutionProgress :=
    (store', { progress with
      completed_cells := progress.completed_cells + cnt + columns.length,
      errors := progress.errors ++ [filename ++ ": " ++ e] })
  match getDocument env filename with
  | .error e => failWith store 0 e
  | .ok doc =>
    match complete_row_wise llm doc.text
        (columns.map (fun c => (c.id, c.question))) filename with
    | .error e => failWith store 0 e
    | .ok responses =>
      match rowWiseColsGo env now model filename responses columns (store, 0) with
      | ((store', cnt), some e) => failWith store' cnt e
      | ((store', cnt), none) =>
        (store', { progress with
          completed_cells := progress.completed_cells + cnt })

/-- `Executor._execute_row_wise`. -/
def execute_row_wise (env : DocEnv) (llm : LLMEnv) (now : String)
    (config : ProjectConfig) (documents : List String) (model : String)
    (store : ProjectStore) :
    Except String (ProjectStore × ExecutionProgress) :=
  let total := documents.length * config.columns.length
  let run := documents.foldl (rowWiseDocStep env llm now model config.columns)
    (store, { total_cells := total, completed_cells := 0,
              current_phase := "processing_rows", errors := [] })
  match generate_summaries env llm now config documents model run.1 with
  | .error e => .error e
  | .ok store2 => .ok (store2, { run.2 with current_phase := "completed" })

/-- `Executor.execute_all`: raises for a missing project, resolves the
model override, dispatches on the project's `execution_mode`. -/
def execute_all (env : DocEnv) (llm : LLMEnv) (now : String)
    (documents : List String) (model? : Option String)
    (store : ProjectStore) :
    Except String (ProjectStore × ExecutionProgress) :=
  match store.configFile with
  | none => .error "Project not found"
  | some config =>
    let model := model?.getD config.model
    if config.execution_mode = "row_wise" then
      execute_row_wise env llm now config documents model store
    else
      execute_parallel env llm now config documents model store

/-- "A completed-or-error Cell Result is persisted under key `k`". -/
def goodCellAt (store : ProjectStore) (k : String) : Prop :=
  ∃ res v, store.resultsFile = some res ∧ dictGet res.cells k = some v ∧
    (v.status = "completed" ∨ v.status = "error")

/-! ## Concrete fixtures used by witnesses and counterexamples -/

/-- A minimal completed cell result. -/
def resCell (a : String) : CellResult :=
  { answer := a, citations := [], model := "m", timestamp := "t" }

def colA : Column := { id := "col_a", question := "A?" }

def colB : Column := { id := "col_b", question := "B?" }

def colC : Column := { id := "col_c", question := "C?" }

/-- A two-column project config. -/
def cfgAB : ProjectConfig :=
  { name := "p", created_at := "t", updated_at := "t", columns := [colA, colB] }

/-- A one-column project config. -/
def cfgA : ProjectConfig :=
  { name := "p", created_at := "t", updated_at := "t", columns := [colA] }

/-- A populated results file for the two-column project. -/
def resultsAB : ProjectResults :=
  { cells := [("d.txt:col_a", resCell "x"), ("d.txt:col_b", resCell "y")],
    row_summaries := [("d.txt", resCell "r")],
    column_summaries := [("col_a", resCell "sa"), ("col_b", resCell "sb")] }

/-- The two-column project's on-disk state. -/
def storeAB : ProjectStore :=
  { configFile := some cfgAB, resultsFile := some resultsAB }

/-- The one-column project's on-disk state (no results file yet). -/
def storeA : ProjectStore := { configFile := some cfgA }

/-- A citation whose text is 55 `a`s. -/
def aggCit1 : Citation :=
  { id := "c1", source_file := "d.txt", text := ⟨List.replicate 55 'a'⟩,
    page := .int 1, char_start := 0, char_end := 55, context := "ctx1" }

/-- A citation agreeing with `aggCit1` on the first 50 characters but
differing beyond character 50. -/
def aggCit2 : Citation :=
  { id := "c2", source_file := "d.txt", text := ⟨List.replicate 50 'a' ++ ['x', 'y', 'z']⟩,
    page := .int 2, char_start := 5, char_end := 58, context := "ctx2" }

/-- A single-page cached text document. -/
def recD : ExtractionRecord :=
  { text := "hello world, hello docs",
    pages := [{ pageNum := some 1, text := "hello world, hello docs",
                char_start := 0, char_end := 23 }],
    char_count := 23 }

/-- Parser-level document environment containing only `d.txt`. -/
def envD : DocEnv := [("d.txt", recD)]

/-- An LLM boundary where every call fails (the provider is down). -/
def llmDown : LLMEnv :=
  { completeDoc := fun _ _ _ => .error "LLM unavailable",
    completeRowRaw := fun _ _ _ => .error "LLM unavailable",
    decode := fun _ => .error (),
    genSummary := fun _ _ => .error "LLM unavailable" }

/-- An LLM boundary where every call succeeds with marker-free
content. -/
def llmOk : LLMEnv :=
  { completeDoc := fun _ _ _ =>
      .ok { content := "fine", prompt_tokens := 3, completion_tokens := 4 },
    completeRowRaw := fun _ _ _ => .ok { content := "no braces here" },
    decode := fun _ => .error (),
    genSummary := fun _ _ => .ok { content := "sum" } }

/-- A one-column row-wise project config. -/
def cfgRowWise : ProjectConfig :=
  { name := "p", created_at := "t", updated_at := "t",
    execution_mode := "row_wise", columns := [colA] }

/-- The row-wise project's on-disk state with an empty results file. -/
def storeRW : ProjectStore :=
  { configFile := some cfgRowWise, resultsFile := some {} }

/-- A root directory holding one single-page pdf. -/
def pdfDisk : List (String × DiskFile) :=
  [("report.pdf", { mtime := 7, pdfPageTexts := ["hello pdf page"] })]

/-- A stale cache entry for `report.pdf` (stored mtime 3 vs disk 7). -/
def staleCache : List (String × ExtractionRecord) :=
  [("report.pdf", { text := "old", mtime := some 3 })]

/-- A concrete `json.loads` stand-in: decodes the exact block
`\x7b"ok"\x7d` to an answers object for `q1`, fails on everything
else. -/
def decodeW : String → Except Unit PyVal := fun s =>
  if s = "\x7b\x22ok\x22\x7d" then
    .ok (.obj [("answers", .obj [("q1", .obj [("answer", .str "A1")])])])
  else .error ()

/-! ## Helper lemmas -/

theorem find?_setMap_self {α : Type} (t : List (String × α)) (k : String)
    (v : α) (h : t.any (fun p => p.1 = k)) :
    (t.map (fun p => if p.1 = k then (k, v) else p)).find?
      (fun p => decide (p.1 = k)) = some (k, v) := by
  induction t with
  | nil => simp_all
  | cons p t ih =>
    by_cases hp : p.1 = k
    · simp [List.find?, hp]
    · simp only [List.any_cons, hp] at h
      simp only [List.map_cons, if_neg hp, List.find?]
      have hd : (decide (p.1 = k)) = false := by simp [hp]
      simp only [hd]
      exact ih (by simpa using h)

theorem find?_append_self {α : Type} (t : List (String × α)) (k : String)
    (v : α) (h : ¬ t.any (fun p => p.1 = k)) :
    (t ++ [(k, v)]).find? (fun p => decide (p.1 = k)) = some (k, v) := by
  induction t with
  | nil => simp [List.find?]
  | cons p t ih =>
    simp only [List.any_cons, Bool.or_eq_true, not_or] at h
    simp only [List.cons_append, List.find?]
    have hd : (decide (p.1 = k)) = false := by
      simp only [decide_eq_false_iff_not]
      simpa using h.1
    simp only [hd]
    exact ih (by simp [h.2])

theorem dictGet_dictSet_self {α : Type} (m : List (String × α)) (k : String)
    (v : α) : dictGet (dictSet m k v) k = some v := by
  unfold dictGet dictSet
  split
  · rename_i h
    rw [find?_setMap_self m k v h]
    rfl
  · rename_i h
    rw [find?_append_self m k v h]
    rfl

theorem find?_setMap_ne {α : Type} (t : List (String × α)) (k k' : String)
    (v : α) (h : k' ≠ k) :
    (t.map (fun p => if p.1 = k then (k, v) else p)).find?
      (fun p => decide (p.1 = k')) = t.find? (fun p => decide (p.1 = k')) := by
  induction t with
  | nil => simp
  | cons p t ih =>
    by_cases hp : p.1 = k
    · simp only [List.map_cons, if_pos hp, List.find?]
      have hk : (decide (k = k')) = false := by
        simp only [decide_eq_false_iff_not]
        exact fun hh => h hh.symm
      have hp' : (decide (p.1 = k')) = false := by
        simp only [decide_eq_false_iff_not]
        rw [hp]; exact fun hh => h hh.symm
      simp only [hk, hp']
      exact ih
    · simp only [List.map_cons, if_neg hp, List.find?]
      cases hd : decide (p.1 = k') with
      | true => rfl
      | false => exact ih

theorem find?_append_ne {α : Type} (t : List (String × α)) (k k' : String)
    (v : α) (h : k' ≠ k) :
    (t ++ [(k, v)]).find? (fun p => decide (p.1 = k')) =
      t.find? (fun p => decide (p.1 = k')) := by
  induction t with
  | nil =>
    have hk : (decide (k = k')) = false := by
      simp only [decide_eq_false_iff_not]
      exact fun hh => h hh.symm
    simp [List.find?, hk]
  | cons p t ih =>
    simp only [List.cons_append, List.find?]
    cases hd : decide (p.1 = k') with
    | true => rfl
    | false => exact ih

theorem dictGet_dictSet_ne {α : Type} (m : List (String × α)) (k k' : String)
    (v : α) (h : k' ≠ k) : dictGet (dictSet m k v) k' = dictGet m k' := by
  unfold dictGet dictSet
  split
  · rw [find?_setMap_ne m k k' v h]
  · rw [find?_append_ne m k k' v h]

/-! ## String-suffix reasoning for cell keys -/

/-- Cancellation around a separator: if the separator occurs in neither
tail, the tails after the last separator agree. -/
theorem eq_of_append_sep {a : Char} :
    ∀ (t f xs ys : List Char), a ∉ xs → a ∉ ys →
      t ++ a :: xs = f ++ a :: ys → xs = ys := by
  intro t
  induction t with
  | nil =>
    intro f xs ys hx hy h
    cases f with
    | nil => simpa using h
    | cons b f' =>
      simp only [List.nil_append, List.cons_append, List.cons.injEq] at h
      exfalso
      apply hx
      rw [h.2]
      exact List.mem_append_right f' (List.mem_cons_self a ys)
  | cons b t' ih =>
    intro f xs ys hx hy h
    cases f with
    | nil =>
      simp only [List.cons_append, List.nil_append, List.cons.injEq] at h
      exfalso
      apply hy
      rw [← h.2]
      exact List.mem_append_right t' (List.mem_cons_self a xs)
    | cons b' f' =>
      simp only [List.cons_append, List.cons.injEq] at h
      exact ih f' xs ys hx hy h.2

/-- `f"{filename}:{c}".endswith(f":{cid}")` holds exactly for `c = cid`
when neither column id contains a colon. -/
theorem pyEndsWith_cellKey (f c cid : String)
    (hc : ':' ∉ c.data) (hcid : ':' ∉ cid.data) :
    pyEndsWith (cellKey f c) (":" ++ cid) = true ↔ c = cid := by
  unfold pyEndsWith cellKey
  rw [List.isSuffixOf_iff_suffix]
  have hcolon : (":" : String).data = [':'] := rfl
  have hkey : (f ++ ":" ++ c).data = f.data ++ ':' :: c.data := by
    rw [String.data_append, String.data_append, hcolon, List.append_assoc]
    rfl
  have hsuf : ((":" : String) ++ cid).data = ':' :: cid.data := by
    rw [String.data_append, hcolon]
    rfl
  rw [hkey, hsuf]
  constructor
  · rintro ⟨t, ht⟩
    have hdata : cid.data = c.data :=
      eq_of_append_sep t f.data cid.data c.data hcid hc ht
    have : String.mk c.data = String.mk cid.data := congrArg String.mk hdata.symm
    simpa using this
  · intro h
    subst h
    exact ⟨f.data, rfl⟩

/-- A cell key always ends with the `":{column_id}"` of its own column. -/
theorem pyEndsWith_cellKey_self (f c : String) :
    pyEndsWith (cellKey f c) (":" ++ c) = true := by
  unfold pyEndsWith cellKey
  rw [List.isSuffixOf_iff_suffix]
  have hkey : (f ++ ":" ++ c).data = f.data ++ (":" ++ c).data := by
    rw [String.data_append, String.data_append, String.data_append,
      List.append_assoc]
  rw [hkey]
  exact List.suffix_append f.data (":" ++ c).data

/-! ## Lookup lemmas over filtered dictionaries -/

theorem dictGet_filter_keep {α : Type} (m : List (String × α))
    (pred : String → Bool) (k : String) (h : pred k = true) :
    dictGet (m.filter (fun p => pred p.1)) k = dictGet m k := by
  induction m with
  | nil => rfl
  | cons p t ih =>
    by_cases hp : p.1 = k
    · have hpr : pred p.1 = true := by rw [hp]; exact h
      rw [List.filter_cons, if_pos hpr]
      unfold dictGet
      simp [List.find?, hp]
    · have hd : (decide (p.1 = k)) = false := by simp [hp]
      cases hpr : pred p.1 with
      | true =>
        rw [List.filter_cons, if_pos hpr]
        unfold dictGet at *
        simp only [List.find?, hd]
        exact ih
      | false =>
        rw [List.filter_cons, if_neg (by simp [hpr])]
        unfold dictGet at *
        rw [ih]
        simp only [List.find?, hd]

theorem dictGet_filter_drop {α : Type} (m : List (String × α))
    (pred : String → Bool) (k : String) (h : pred k = false) :
    dictGet (m.filter (fun p => pred p.1)) k = none := by
  induction m with
  | nil => rfl
  | cons p t ih =>
    by_cases hp : p.1 = k
    · have hpr : pred p.1 = false := by rw [hp]; exact h
      rw [List.filter_cons, if_neg (by simp [hpr])]
      exact ih
    · have hd : (decide (p.1 = k)) = false := by simp [hp]
      cases hpr : pred p.1 with
      | true =>
        rw [List.filter_cons, if_pos hpr]
        unfold dictGet at *
        simp only [List.find?, hd]
        exact ih
      | false =>
        rw [List.filter_cons, if_neg (by simp [hpr])]
        exact ih

theorem dictGet_dictPop_self {α : Type} (m : List (String × α)) (k : String) :
    dictGet (dictPop m k) k = none := by
  unfold dictPop
  induction m with
  | nil => rfl
  | cons p t ih =>
    by_cases hp : p.1 = k
    · rw [List.filter_cons, if_neg (by simp [hp])]
      exact ih
    · rw [List.filter_cons, if_pos (by simp [hp])]
      unfold dictGet at *
      have hd : (decide (p.1 = k)) = false := by simp [hp]
      simp only [List.find?, hd]
      exact ih

theorem dictGet_dictPop_ne {α : Type} (m : List (String × α)) (k k' : String)
    (h : k' ≠ k) : dictGet (dictPop m k) k' = dictGet m k' := by
  unfold dictPop
  induction m with
  | nil => rfl
  | cons p t ih =>
    by_cases hp : p.1 = k
    · rw [List.filter_cons, if_neg (by simp [hp])]
      unfold dictGet at *
      have hd : (decide (p.1 = k')) = false := by
        simp only [decide_eq_false_iff_not]
        rw [hp]; exact fun hh => h hh.symm
      rw [ih]
      simp only [List.find?, hd]
    · rw [List.filter_cons, if_pos (by simp [hp])]
      unfold dictGet at *
      simp only [List.find?]
      cases hd2 : decide (p.1 = k') with
      | true => rfl
      | false => exact ih

/-! ### Reordering helpers -/

theorem foldl_dictSet_fresh (rest : List Column) :
    ∀ (m : List (String × Column)),
      (∀ c ∈ rest, ¬ m.any (fun p => p.1 = c.id)) →
      rest.Pairwise (fun a b => a.id ≠ b.id) →
      rest.foldl (fun m c => dictSet m c.id c) m =
        m ++ rest.map (fun c => (c.id, c)) := by
  induction rest with
  | nil => intro m _ _; simp
  | cons c rest' ih =>
    intro m h1 h2
    have hstep : dictSet m c.id c = m ++ [(c.id, c)] := by
      unfold dictSet
      rw [if_neg]
      have := h1 c (List.mem_cons_self c rest')
      simpa using this
    have hpair := (List.pairwise_cons.mp h2)
    have h1' : ∀ c' ∈ rest', ¬ (m ++ [(c.id, c)]).any (fun p => p.1 = c'.id) := by
      intro c' hc'
      simp only [List.any_append, Bool.or_eq_true, not_or]
      constructor
      · exact (by simpa using h1 c' (List.mem_cons_of_mem c hc'))
      · simp only [List.any_cons, List.any_nil, Bool.or_false]
        simp only [decide_eq_true_eq]
        exact hpair.1 c' hc'
    simp only [List.foldl_cons, hstep]
    rw [ih (m ++ [(c.id, c)]) h1' hpair.2]
    simp

theorem colMapOf_of_nodup (columns : List Column)
    (h : columns.Pairwise (fun a b => a.id ≠ b.id)) :
    colMapOf columns = columns.map (fun c => (c.id, c)) := by
  unfold colMapOf
  rw [foldl_dictSet_fresh columns [] (by intro c _; simp) h]
  simp

theorem dictGet_map_pair (l : List Column) (k : String) :
    dictGet (l.map (fun c => (c.id, c))) k = l.find? (fun c => c.id = k) := by
  induction l with
  | nil => rfl
  | cons c t ih =>
    unfold dictGet at *
    simp only [List.map_cons, List.find?]
    cases hd : decide (c.id = k) with
    | true => rfl
    | false => exact ih

/-! ### Citation parser helpers -/

theorem getDocument_ok (env : DocEnv) (f : String) (rec : ExtractionRecord) :
    getDocument env f = .ok rec ↔ dictGet env f = some rec := by
  unfold getDocument
  cases hd : dictGet env f with
  | none => simp
  | some r => simp

theorem pageForPos_wf (pages : List Span)
    (h : ∀ sp ∈ pages, ∀ n, sp.pageNum = some n → 1 ≤ n) (pos : Nat) :
    (∃ n, pageForPos pages pos = .int n ∧ 1 ≤ n) ∨
    (∃ s, pageForPos pages pos = .str s) := by
  unfold pageForPos
  cases hf : pages.find? (fun sp => sp.char_start ≤ pos ∧ pos < sp.char_end) with
  | none => exact .inl ⟨1, rfl, by omega⟩
  | some sp =>
    have hmem : sp ∈ pages := List.mem_of_find?_eq_some hf
    dsimp only
    unfold spanPage
    cases hp : sp.pageNum with
    | some n => exact .inl ⟨n, rfl, h sp hmem n hp⟩
    | none =>
      cases hsn : sp.sheetName with
      | some nm => exact .inr ⟨nm, rfl⟩
      | none => exact .inl ⟨1, rfl, by omega⟩

theorem pageForPosNum_wf (pages : List Span)
    (h : ∀ sp ∈ pages, ∀ n, sp.pageNum = some n → 1 ≤ n) (pos : Nat) :
    1 ≤ pageForPosNum pages pos := by
  unfold pageForPosNum
  cases hf : pages.find? (fun sp => sp.char_start ≤ pos ∧ pos < sp.char_end) with
  | none => exact le_refl 1
  | some sp =>
    have hmem : sp ∈ pages := List.mem_of_find?_eq_some hf
    dsimp only
    cases hp : sp.pageNum with
    | some n => simpa using h sp hmem n hp
    | none => simp

theorem find_text_location_some (env : DocEnv) (f q : String)
    (loc : TextLocation) (h : find_text_location env f q = .ok (some loc)) :
    ∃ rec, dictGet env f = some rec ∧
      loc.char_end = loc.char_start + q.length ∧
      loc.page = pageForPos rec.pages loc.char_start := by
  unfold find_text_location at h
  cases hd : getDocument env f with
  | error e => rw [hd] at h; exact absurd h (by simp)
  | ok rec =>
    rw [hd] at h
    dsimp only at h
    refine ⟨rec, (getDocument_ok env f rec).mp hd, ?_⟩
    cases hsp : (match pyFind rec.text q with
        | some i => some i
        | none => pyFind (pyLower rec.text) (pyLower q)) with
    | none => rw [hsp] at h; exact absurd h (by simp)
    | some i =>
      rw [hsp] at h
      have hloc : loc =
          { filename := f, page := pageForPos rec.pages i, char_start := i,
            char_end := i + q.length, text := q } := by
        cases h; rfl
      rw [hloc]
      exact ⟨rfl, rfl⟩

/-- The property bundle the amended C3 states for every citation. -/
def citePageOk (c : Citation) : Prop :=
  (c.page = .int 0 →
    c.context = "[Unverified quote: " ++ pyTake 50 c.text ++ "...]" ∨
    c.context = "[Unable to resolve citation]") ∧
  (c.page = .int 0 ∨ (∃ n, c.page = .int n ∧ 1 ≤ n) ∨ (∃ s, c.page = .str s))

theorem mkQuoteCitation_props (env : DocEnv) (sf em ev : String) (k : Nat)
    (quoted : String) (c : Citation)
    (hpages : ∀ rec, dictGet env sf = some rec →
      ∀ sp ∈ rec.pages, ∀ n, sp.pageNum = some n → 1 ≤ n)
    (h : mkQuoteCitation env sf em ev k quoted = .ok c) :
    c.char_start ≤ c.char_end ∧ citePageOk c := by
  unfold mkQuoteCitation at h
  cases hf : find_text_location env sf quoted with
  | error e => rw [hf] at h; exact absurd h (by simp)
  | ok oloc =>
    rw [hf] at h
    cases oloc with
    | none =>
      dsimp only at h
      have hc : c =
          { id := "cite_" ++ toString k, source_file := sf, text := quoted,
            page := .int 0, char_start := 0, char_end := 0,
            context := "[Unverified quote: " ++ pyTake 50 quoted ++ "...]",
            extraction_version := ev, extraction_method := em } := by
        cases h; rfl
      rw [hc]
      exact ⟨le_refl 0, fun _ => .inl rfl, .inl rfl⟩
    | some loc =>
      dsimp only at h
      cases hctx : get_context_around_doc env sf loc.char_start loc.char_end 150 with
      | error e => rw [hctx] at h; exact absurd h (by simp)
      | ok context =>
        rw [hctx] at h
        have hc : c =
            { id := "cite_" ++ toString k, source_file := sf, text := quoted,
              page := loc.page, char_start := loc.char_start,
              char_end := loc.char_end, context := context,
              extraction_version := ev, extraction_method := em } := by
          cases h; rfl
        obtain ⟨rec, hrec, hend, hpage⟩ :=
          find_text_location_some env sf quoted loc hf
        have hwf := pageForPos_wf rec.pages (hpages rec hrec) loc.char_start
        rw [hc]
        refine ⟨by simp [hend], ?_, ?_⟩
        · intro h0
          exfalso
          simp only at h0
          rw [hpage] at h0
          rcases hwf with ⟨n, hn, hn1⟩ | ⟨s, hs⟩
          · rw [hn] at h0
            cases h0
            omega
          · rw [hs] at h0
            cases h0
        · simp only [hpage]
          rcases hwf with ⟨n, hn, hn1⟩ | ⟨s, hs⟩
          · exact .inr (.inl ⟨n, hn, hn1⟩)
          · exact .inr (.inr ⟨s, hs⟩)

theorem mkPosCitation_props (env : DocEnv) (sf : String) (k a b : Nat)
    (hpages : ∀ rec, dictGet env sf = some rec →
      ∀ sp ∈ rec.pages, ∀ n, sp.pageNum = some n → 1 ≤ n) :
    (mkPosCitation env sf k a b).char_start = a ∧
    (mkPosCitation env sf k a b).char_end = b ∧
    citePageOk (mkPosCitation env sf k a b) := by
  unfold mkPosCitation
  cases hd : getDocument env sf with
  | ok doc =>
    dsimp only
    have hrec : dictGet env sf = some doc := (getDocument_ok env sf doc).mp hd
    have hwf := pageForPosNum_wf doc.pages (hpages doc hrec) a
    refine ⟨rfl, rfl, ?_, ?_⟩
    · intro h0
      exfalso
      simp only [PageVal.int.injEq] at h0
      omega
    · exact .inr (.inl ⟨pageForPosNum doc.pages a, rfl, hwf⟩)
  | error e =>
    dsimp only
    exact ⟨rfl, rfl, fun _ => .inr rfl, .inl rfl⟩

theorem quoteFold_props (env : DocEnv) (sf em ev : String)
    (hpages : ∀ rec, dictGet env sf = some rec →
      ∀ sp ∈ rec.pages, ∀ n, sp.pageNum = some n → 1 ≤ n) :
    ∀ (ms : List (String × String)) (st st' : ParseState),
      ms.foldlM (quoteStep env sf em ev) st = .ok st' →
      ∃ new, st'.citations = st.citations ++ new ∧
        ∀ c ∈ new, c.char_start ≤ c.char_end ∧ citePageOk c := by
  intro ms
  induction ms with
  | nil =>
    intro st st' h
    refine ⟨[], ?_, by simp⟩
    have : st = st' := by
      simpa [List.foldlM, pure, Except.pure] using h
    rw [this]
    simp
  | cons m ms' ih =>
    intro st st' h
    rw [List.foldlM_cons] at h
    cases hstep : quoteStep env sf em ev st m with
    | error e =>
      rw [hstep] at h
      exact absurd h (by simp [Bind.bind, Except.bind])
    | ok st1 =>
      rw [hstep] at h
      have h' : ms'.foldlM (quoteStep env sf em ev) st1 = .ok st' := by
        simpa [Bind.bind, Except.bind] using h
      unfold quoteStep at hstep
      cases hmk : mkQuoteCitation env sf em ev st.counter m.2 with
      | error e => rw [hmk] at hstep; exact absurd hstep (by simp)
      | ok cit =>
        rw [hmk] at hstep
        have hst1 : st1 =
            { citations := st.citations ++ [cit],
              text := pyReplaceFirst st.text m.1
                ("[" ++ toString st.counter ++ "]"),
              counter := st.counter + 1 } := by
          cases hstep; rfl
        obtain ⟨new', hnew', hprops⟩ := ih st1 st' h'
        refine ⟨cit :: new', ?_, ?_⟩
        · rw [hnew', hst1]
          simp
        · intro c hc
          cases hc with
          | head =>
            exact mkQuoteCitation_props env sf em ev st.counter m.2 cit hpages hmk
          | tail _ hmem => exact hprops c hmem

theorem posFold_props (env : DocEnv) (sf : String) :
    ∀ (ms : List (String × Nat × Nat)) (st : ParseState),
      ∃ new, (ms.foldl (posStep env sf) st).citations = st.citations ++ new ∧
        ∀ c ∈ new, ∃ k a b, c = mkPosCitation env sf k a b := by
  intro ms
  induction ms with
  | nil => intro st; exact ⟨[], by simp, by simp⟩
  | cons m ms' ih =>
    intro st
    rw [List.foldl_cons]
    obtain ⟨new', hnew', hprops⟩ := ih (posStep env sf st m)
    refine ⟨mkPosCitation env sf st.counter m.2.1 m.2.2 :: new', ?_, ?_⟩
    · rw [hnew']
      unfold posStep
      simp
    · intro c hc
      cases hc with
      | head => exact ⟨st.counter, m.2.1, m.2.2, rfl⟩
      | tail _ hmem => exact hprops c hmem

/-! ### Row-wise parsing helpers -/

theorem dictGet_none_iff_any_false {α : Type} (m : List (String × α))
    (k : String) :
    dictGet m k = none ↔ m.any (fun p => p.1 = k) = false := by
  unfold dictGet
  rw [Option.map_eq_none', List.find?_eq_none, List.any_eq_false]

theorem rowWiseAssign_obj (answers : List (String × PyVal))
    (res : List (String × PyVal)) (q : String) :
    rowWiseAssign (.obj answers) res q = .ok (rowWiseAssignSpec answers res q) := by
  unfold rowWiseAssign rowWiseAssignSpec pyValContains pyValIndex
  dsimp only
  cases hget : dictGet answers q with
  | none =>
    have hany : answers.any (fun p => p.1 = q) = false :=
      (dictGet_none_iff_any_false answers q).mp hget
    rw [hany]
  | some x =>
    have hany : answers.any (fun p => p.1 = q) = true := by
      cases hany : answers.any (fun p => p.1 = q) with
      | true => rfl
      | false =>
        rw [(dictGet_none_iff_any_false answers q).mpr hany] at hget
        cases hget
    rw [hany]
    dsimp only
    cases x <;> rfl

theorem rowWiseLoop_obj (answers : List (String × PyVal)) :
    ∀ (qs : List String) (res : List (String × PyVal)),
      qs.foldlM (rowWiseAssign (.obj answers)) res =
        .ok (qs.foldl (rowWiseAssignSpec answers) res) := by
  intro qs
  induction qs with
  | nil => intro res; rfl
  | cons q qs' ih =>
    intro res
    rw [List.foldlM_cons, rowWiseAssign_obj]
    rw [List.foldl_cons]
    calc (Except.ok (rowWiseAssignSpec answers res q) >>=
            fun s => qs'.foldlM (rowWiseAssign (.obj answers)) s)
        = qs'.foldlM (rowWiseAssign (.obj answers))
            (rowWiseAssignSpec answers res q) := rfl
      _ = .ok (qs'.foldl (rowWiseAssignSpec answers)
            (rowWiseAssignSpec answers res q)) := ih _

/-! ### Aggregation helpers -/

theorem specDedupKeys_cons_mem (seen : List String) (c : Citation)
    (rest : List Citation) (h : seen.contains (aggKey c) = true) :
    specDedupKeys seen (c :: rest) = specDedupKeys seen rest := by
  simp only [specDedupKeys]
  rw [if_pos h]

theorem specDedupKeys_cons_not_mem (seen : List String) (c : Citation)
    (rest : List Citation) (h : seen.contains (aggKey c) = false) :
    specDedupKeys seen (c :: rest) =
      c :: specDedupKeys (seen ++ [aggKey c]) rest := by
  simp only [specDedupKeys]
  rw [if_neg (by rw [h]; simp)]

theorem aggFold_spec (cs : List Citation) :
    ∀ (seen : List String) (acc : List Citation),
      cs.foldl aggStep (seen, acc) =
        (seen ++ (specDedupKeys seen cs).map aggKey,
         acc ++ specRenumber (acc.length + 1) (specDedupKeys seen cs)) := by
  induction cs with
  | nil => intro seen acc; simp [specDedupKeys, specRenumber]
  | cons c rest ih =>
    intro seen acc
    rw [List.foldl_cons]
    cases hmem : seen.contains (aggKey c) with
    | true =>
      have hstep : aggStep (seen, acc) c = (seen, acc) := by
        unfold aggStep; rw [if_pos hmem]
      rw [hstep, ih seen acc, specDedupKeys_cons_mem seen c rest hmem]
    | false =>
      have hstep : aggStep (seen, acc) c =
          (seen ++ [aggKey c], acc ++ [aggRenumber (acc.length + 1) c]) := by
        unfold aggStep; rw [if_neg (by rw [hmem]; simp)]
      rw [hstep, ih (seen ++ [aggKey c]) (acc ++ [aggRenumber (acc.length + 1) c]),
        specDedupKeys_cons_not_mem seen c rest hmem]
      simp only [specRenumber, List.map_cons, List.length_append,
        List.length_cons, List.length_nil, List.append_assoc,
        List.cons_append, List.nil_append]

theorem aggFold_bind (responses : List ParsedResponse) :
    ∀ st, responses.foldl (fun st r => r.citations.foldl aggStep st) st =
      (responses.flatMap (fun r => r.citations)).foldl aggStep st := by
  induction responses with
  | nil => intro st; rfl
  | cons r rest ih =>
    intro st
    rw [List.foldl_cons, List.flatMap_cons, List.foldl_append]
    exact ih _

/-! ### Executor helpers -/

theorem goodCellAt_save_self (store : ProjectStore) (f c : String)
    (r : CellResult) (hr : r.status = "completed" ∨ r.status = "error") :
    goodCellAt (storeSaveCell store f c r) (cellKey f c) := by
  refine ⟨_, r, rfl, ?_, hr⟩
  unfold save_cell_result setCell
  exact dictGet_dictSet_self _ _ _

theorem goodCellAt_save_mono (store : ProjectStore) (f c : String)
    (r : CellResult) (hr : r.status = "completed" ∨ r.status = "error")
    (k : String) (h : goodCellAt store k) :
    goodCellAt (storeSaveCell store f c r) k := by
  by_cases hk : k = cellKey f c
  · rw [hk]
    exact goodCellAt_save_self store f c r hr
  · obtain ⟨res, v, hres, hget, hgood⟩ := h
    refine ⟨_, v, rfl, ?_, hgood⟩
    unfold save_cell_result setCell
    rw [hres]
    show dictGet (dictSet res.cells (cellKey f c) r) k = some v
    rw [dictGet_dictSet_ne res.cells (cellKey f c) k r hk]
    exact hget

theorem add_token_usage_resultsFile (now : String) (store store1 : ProjectStore)
    (i o : Nat) (h : add_token_usage now store i o = .ok store1) :
    store1.resultsFile = store.resultsFile := by
  unfold add_token_usage at h
  cases hc : store.configFile with
  | none => rw [hc] at h; exact absurd h (by simp)
  | some config =>
    rw [hc] at h
    cases h
    rfl

theorem process_cell_shape (env : DocEnv) (llm : LLMEnv) (now : String)
    (store : ProjectStore) (filename : String) (column : Column)
    (model : String) :
    ∃ store1 result,
      process_cell env llm now store filename column model =
        (storeSaveCell store1 filename column.id result, result) ∧
      store1.resultsFile = store.resultsFile ∧
      (result.status = "completed" ∨ result.status = "error") := by
  unfold process_cell
  cases hd : getDocument env filename with
  | error e => exact ⟨store, _, rfl, rfl, .inr rfl⟩
  | ok doc =>
    dsimp only
    cases hl : llm.completeDoc doc.text column.question filename with
    | error e => exact ⟨store, _, rfl, rfl, .inr rfl⟩
    | ok resp =>
      dsimp only
      cases ht : add_token_usage now store resp.prompt_tokens resp.completion_tokens with
      | error e => exact ⟨store, _, rfl, rfl, .inr rfl⟩
      | ok store1 =>
        dsimp only
        cases hp : parse_response env resp.content filename with
        | error e => exact ⟨store, _, rfl, rfl, .inr rfl⟩
        | ok parsed =>
          exact ⟨store1, _, rfl,
            add_token_usage_resultsFile now store store1 _ _ ht, .inl rfl⟩

theorem parallelFold_good (env : DocEnv) (llm : LLMEnv) (now model : String) :
    ∀ (cells : List (String × Column)) (store : ProjectStore)
      (progress : ExecutionProgress),
      (cells.foldl (parallelStep env llm now model) (store, progress)).2.completed_cells
        = progress.completed_cells + cells.length ∧
      (∀ k, goodCellAt store k →
        goodCellAt (cells.foldl (parallelStep env llm now model) (store, progress)).1 k) ∧
      (∀ dc ∈ cells,
        goodCellAt (cells.foldl (parallelStep env llm now model) (store, progress)).1
          (cellKey dc.1 dc.2.id)) := by
  intro cells
  induction cells with
  | nil => intro store progress; exact ⟨by simp, fun k h => h, by simp⟩
  | cons dc rest ih =>
    intro store progress
    obtain ⟨store1, result, hpc, hres, hgoodr⟩ :=
      process_cell_shape env llm now store dc.1 dc.2 model
    have hstep : parallelStep env llm now model (store, progress) dc =
        (storeSaveCell store1 dc.1 dc.2.id result,
         { progress with completed_cells := progress.completed_cells + 1 }) := by
      unfold parallelStep
      rw [hpc]
    rw [List.foldl_cons, hstep]
    obtain ⟨ihc, ihmono, ihcover⟩ := ih (storeSaveCell store1 dc.1 dc.2.id result)
      { progress with completed_cells := progress.completed_cells + 1 }
    refine ⟨?_, ?_, ?_⟩
    · rw [ihc]
      simp only [List.length_cons]
      omega
    · intro k hk
      apply ihmono
      apply goodCellAt_save_mono _ _ _ _ hgoodr
      obtain ⟨res, v, hres2, hget, hgood⟩ := hk
      exact ⟨res, v, by rw [hres, hres2], hget, hgood⟩
    · intro dc' hdc'
      cases hdc' with
      | head =>
        apply ihmono
        exact goodCellAt_save_self _ _ _ _ hgoodr
      | tail _ hmem => exact ihcover dc' hmem

theorem goodCellAt_of_resultsFile_eq (store store1 : ProjectStore)
    (h : store1.resultsFile = store.resultsFile) (k : String)
    (hk : goodCellAt store k) : goodCellAt store1 k := by
  obtain ⟨res, v, hres, hget, hgood⟩ := hk
  exact ⟨res, v, by rw [h, hres], hget, hgood⟩

theorem goodCellAt_saveRow (store : ProjectStore) (f : String)
    (r : CellResult) (k : String) (h : goodCellAt store k) :
    goodCellAt (storeSaveRow store f r) k := by
  obtain ⟨res, v, hres, hget, hgood⟩ := h
  refine ⟨_, v, rfl, ?_, hgood⟩
  unfold save_row_summary
  rw [hres]
  exact hget

theorem goodCellAt_saveCol (store : ProjectStore) (c : String)
    (r : CellResult) (k : String) (h : goodCellAt store k) :
    goodCellAt (storeSaveCol store c r) k := by
  obtain ⟨res, v, hres, hget, hgood⟩ := h
  refine ⟨_, v, rfl, ?_, hgood⟩
  unfold save_column_summary
  rw [hres]
  exact hget

theorem goodCellAt_saveOverall (store : ProjectStore) (r : CellResult)
    (k : String) (h : goodCellAt store k) :
    goodCellAt (storeSaveOverall store r) k := by
  obtain ⟨res, v, hres, hget, hgood⟩ := h
  refine ⟨_, v, rfl, ?_, hgood⟩
  unfold save_overall_summary
  rw [hres]
  exact hget

theorem summaryAttempt_ok (env : DocEnv) (llm : LLMEnv) (now : String)
    (store : ProjectStore) (stype ctx : String) (files : List String)
    (model : String) (store1 : ProjectStore) (result : CellResult)
    (h : summaryAttempt env llm now store stype ctx files model =
      .ok (store1, result)) :
    store1.resultsFile = store.resultsFile := by
  unfold summaryAttempt at h
  cases hg : llm.genSummary stype ctx with
  | error e => rw [hg] at h; exact absurd h (by simp)
  | ok resp =>
    rw [hg] at h
    dsimp only at h
    cases ht : add_token_usage now store resp.prompt_tokens resp.completion_tokens with
    | error e => rw [ht] at h; exact absurd h (by simp)
    | ok store2 =>
      rw [ht] at h
      dsimp only at h
      cases hp : parse_multi_document_response env resp.content files with
      | error e => rw [hp] at h; exact absurd h (by simp)
      | ok parsed =>
        rw [hp] at h
        injection h with hpair
        have hss : store2 = store1 := congrArg Prod.fst hpair
        rw [← hss]
        exact add_token_usage_resultsFile now store store2 _ _ ht

theorem gen_row_summary_preserves (env : DocEnv) (llm : LLMEnv) (now : String)
    (store : ProjectStore) (f m : String) (store' : ProjectStore)
    (h : gen_row_summary env llm now store f m = .ok store') (k : String)
    (hk : goodCellAt store k) : goodCellAt store' k := by
  unfold gen_row_summary at h
  cases hc : store.configFile with
  | none => rw [hc] at h; exact absurd h (by simp)
  | some config =>
    rw [hc] at h
    dsimp only at h
    split at h
    · cases h
      exact goodCellAt_saveRow _ _ _ _ hk
    · split at h
      · rename_i store1 result heq
        cases h
        exact goodCellAt_saveRow _ _ _ _
          (goodCellAt_of_resultsFile_eq store store1
            (summaryAttempt_ok env llm now store _ _ _ _ _ _ heq) k hk)
      · cases h
        exact goodCellAt_saveRow _ _ _ _ hk

theorem gen_column_summary_preserves (env : DocEnv) (llm : LLMEnv)
    (now : String) (documents : List String) (store : ProjectStore)
    (cid m : String) (store' : ProjectStore)
    (h : gen_column_summary env llm now documents store cid m = .ok store')
    (k : String) (hk : goodCellAt store k) : goodCellAt store' k := by
  unfold gen_column_summary at h
  cases hc : store.configFile with
  | none => rw [hc] at h; exact absurd h (by simp)
  | some config =>
    rw [hc] at h
    dsimp only at h
    split at h
    · cases h
      exact goodCellAt_saveCol _ _ _ _ hk
    · split at h
      · rename_i store1 result heq
        cases h
        exact goodCellAt_saveCol _ _ _ _
          (goodCellAt_of_resultsFile_eq store store1
            (summaryAttempt_ok env llm now store _ _ _ _ _ _ heq) k hk)
      · cases h
        exact goodCellAt_saveCol _ _ _ _ hk

theorem gen_overall_summary_preserves (env : DocEnv) (llm : LLMEnv)
    (now : String) (documents : List String) (store : ProjectStore)
    (m : String) (store' : ProjectStore)
    (h : gen_overall_summary env llm now documents store m = .ok store')
    (k : String) (hk : goodCellAt store k) : goodCellAt store' k := by
  unfold gen_overall_summary at h
  cases hc : store.configFile with
  | none => rw [hc] at h; exact absurd h (by simp)
  | some config =>
    rw [hc] at h
    dsimp only at h
    split at h
    · cases h
      exact goodCellAt_saveOverall _ _ _ hk
    · split at h
      · rename_i store1 result heq
        cases h
        exact goodCellAt_saveOverall _ _ _
          (goodCellAt_of_resultsFile_eq store store1
            (summaryAttempt_ok env llm now store _ _ _ _ _ _ heq) k hk)
      · cases h
        exact goodCellAt_saveOverall _ _ _ hk

theorem gen_row_fold_preserves (env : DocEnv) (llm : LLMEnv) (now m : String) :
    ∀ (ds : List String) (store store' : ProjectStore),
      ds.foldlM (fun st d => gen_row_summary env llm now st d m) store =
        .ok store' →
      ∀ k, goodCellAt store k → goodCellAt store' k := by
  intro ds
  induction ds with
  | nil =>
    intro store store' h k hk
    have : store = store' := by
      simpa [List.foldlM, pure, Except.pure] using h
    rw [← this]
    exact hk
  | cons d rest ih =>
    intro store store' h k hk
    rw [List.foldlM_cons] at h
    cases hstep : gen_row_summary env llm now store d m with
    | error e =>
      rw [hstep] at h
      exact absurd h (by simp [Bind.bind, Except.bind])
    | ok store1 =>
      rw [hstep] at h
      have h' : rest.foldlM (fun st d => gen_row_summary env llm now st d m)
          store1 = .ok store' := by
        simpa [Bind.bind, Except.bind] using h
      exact ih store1 store' h' k
        (gen_row_summary_preserves env llm now store d m store1 hstep k hk)

theorem gen_col_fold_preserves (env : DocEnv) (llm : LLMEnv) (now m : String)
    (documents : List String) :
    ∀ (cs : List Column) (store store' : ProjectStore),
      cs.foldlM (fun st c => gen_column_summary env llm now documents st c.id m)
        store = .ok store' →
      ∀ k, goodCellAt store k → goodCellAt store' k := by
  intro cs
  induction cs with
  | nil =>
    intro store store' h k hk
    have : store = store' := by
      simpa [List.foldlM, pure, Except.pure] using h
    rw [← this]
    exact hk
  | cons c rest ih =>
    intro store store' h k hk
    rw [List.foldlM_cons] at h
    cases hstep : gen_column_summary env llm now documents store c.id m with
    | error e =>
      rw [hstep] at h
      exact absurd h (by simp [Bind.bind, Except.bind])
    | ok store1 =>
      rw [hstep] at h
      have h' : rest.foldlM
          (fun st c => gen_column_summary env llm now documents st c.id m)
          store1 = .ok store' := by
        simpa [Bind.bind, Except.bind] using h
      exact ih store1 store' h' k
        (gen_column_summary_preserves env llm now documents store c.id m
          store1 hstep k hk)

theorem generate_summaries_preserves (env : DocEnv) (llm : LLMEnv)
    (now : String) (config : ProjectConfig) (documents : List String)
    (m : String) (store store' : ProjectStore)
    (h : generate_summaries env llm now config documents m store = .ok store')
    (k : String) (hk : goodCellAt store k) : goodCellAt store' k := by
  unfold generate_summaries at h
  cases h1 : documents.foldlM
      (fun st d => gen_row_summary env llm now st d m) store with
  | error e => rw [h1] at h; exact absurd h (by simp)
  | ok store1 =>
    rw [h1] at h
    dsimp only at h
    cases h2 : config.columns.foldlM
        (fun st c => gen_column_summary env llm now documents st c.id m)
        store1 with
    | error e => rw [h2] at h; exact absurd h (by simp)
    | ok store2 =>
      rw [h2] at h
      dsimp only at h
      exact gen_overall_summary_preserves env llm now documents store2 m
        store' h k
        (gen_col_fold_preserves env llm now m documents config.columns store1
          store2 h2 k
          (gen_row_fold_preserves env llm now m documents store store1 h1 k hk))

theorem getDocument_error (env : DocEnv) (f e : String)
    (h : getDocument env f = .error e) : dictGet env f = none := by
  unfold getDocument at h
  cases hd : dictGet env f with
  | none => rfl
  | some rec => rw [hd] at h; exact absurd h (by simp)

theorem find_text_location_ok_of_doc (env : DocEnv) (f q : String)
    (rec : ExtractionRecord) (h : dictGet env f = some rec) :
    ∃ o, find_text_location env f q = .ok o := by
  unfold find_text_location
  rw [(getDocument_ok env f rec).mpr h]
  dsimp only
  cases hsp : (match pyFind rec.text q with
      | some i => some i
      | none => pyFind (pyLower rec.text) (pyLower q)) with
  | none => exact ⟨none, rfl⟩
  | some i => exact ⟨_, rfl⟩

theorem get_context_around_doc_ok (env : DocEnv) (f : String)
    (rec : ExtractionRecord) (a b cc : Nat) (h : dictGet env f = some rec) :
    ∃ s, get_context_around_doc env f a b cc = .ok s := by
  unfold get_context_around_doc
  rw [(getDocument_ok env f rec).mpr h]
  exact ⟨_, rfl⟩

theorem mkQuoteCitation_ok_of_doc (env : DocEnv) (sf em ev : String)
    (k : Nat) (q : String) (rec : ExtractionRecord)
    (h : dictGet env sf = some rec) :
    ∃ c, mkQuoteCitation env sf em ev k q = .ok c := by
  unfold mkQuoteCitation
  obtain ⟨o, ho⟩ := find_text_location_ok_of_doc env sf q rec h
  rw [ho]
  cases o with
  | none => exact ⟨_, rfl⟩
  | some loc =>
    dsimp only
    obtain ⟨s, hs⟩ :=
      get_context_around_doc_ok env sf rec loc.char_start loc.char_end 150 h
    rw [hs]
    exact ⟨_, rfl⟩

theorem quoteFold_ok_of_doc (env : DocEnv) (sf em ev : String)
    (rec : ExtractionRecord) (h : dictGet env sf = some rec) :
    ∀ (ms : List (String × String)) (st : ParseState),
      ∃ st', ms.foldlM (quoteStep env sf em ev) st = .ok st' := by
  intro ms
  induction ms with
  | nil => intro st; exact ⟨st, rfl⟩
  | cons m rest ih =>
    intro st
    obtain ⟨c, hc⟩ := mkQuoteCitation_ok_of_doc env sf em ev st.counter m.2 rec h
    have hstep : quoteStep env sf em ev st m = .ok
        { citations := st.citations ++ [c],
          text := pyReplaceFirst st.text m.1
            ("[" ++ toString st.counter ++ "]"),
          counter := st.counter + 1 } := by
      unfold quoteStep
      rw [hc]
    rw [List.foldlM_cons, hstep]
    obtain ⟨st', hst'⟩ := ih
      { citations := st.citations ++ [c],
        text := pyReplaceFirst st.text m.1
          ("[" ++ toString st.counter ++ "]"),
        counter := st.counter + 1 }
    exact ⟨st', hst'⟩

theorem parse_response_ok_of_doc (env : DocEnv) (resp f : String)
    (rec : ExtractionRecord) (h : dictGet env f = some rec) :
    ∃ pr, parse_response env resp f = .ok pr := by
  unfold parse_response
  dsimp only
  obtain ⟨st1, hst1⟩ := quoteFold_ok_of_doc env f
    (getExtractionMetadata env f).1 (getExtractionMetadata env f).2 rec h
    (findQuoteMatches resp) { citations := [], text := resp, counter := 1 }
  rw [hst1]
  exact ⟨_, rfl⟩

theorem rowWiseColsGo_ok (env : DocEnv) (now model filename : String)
    (rec : ExtractionRecord) (hdoc : dictGet env filename = some rec)
    (responses : List (String × PyVal))
    (hstr : ∀ q v, dictGet responses q = some v → ∃ s, v = .str s) :
    ∀ (cols : List Column) (store : ProjectStore) (cnt : Nat),
      ∃ store',
        rowWiseColsGo env now model filename responses cols (store, cnt) =
          ((store', cnt + cols.length), none) ∧
        (∀ k, goodCellAt store k → goodCellAt store' k) ∧
        (∀ c ∈ cols, goodCellAt store' (cellKey filename c.id)) := by
  intro cols
  induction cols with
  | nil =>
    intro store cnt
    exact ⟨store, by simp [rowWiseColsGo], fun k h => h, by simp⟩
  | cons col rest ih =>
    intro store cnt
    cases hresp : dictGet responses col.id with
    | some v =>
      obtain ⟨s, hs⟩ := hstr col.id v hresp
      subst hs
      obtain ⟨pr, hpr⟩ := parse_response_ok_of_doc env s filename rec hdoc
      obtain ⟨store', hrest, hmono, hcover⟩ := ih
        (storeSaveCell store filename col.id
          { answer := pr.text, citations := pr.citations, model := model,
            timestamp := now, status := "completed" })
        (cnt + 1)
      refine ⟨store', ?_, ?_, ?_⟩
      · simp only [rowWiseColsGo, hresp, hpr, hrest]
        have he : cnt + 1 + rest.length = cnt + (rest.length + 1) := by omega
        simp only [List.length_cons, he]
      · intro k hk
        exact hmono k (goodCellAt_save_mono store filename col.id _
          (.inl rfl) k hk)
      · intro c hc
        cases hc with
        | head =>
          exact hmono _ (goodCellAt_save_self store filename col.id _
            (.inl rfl))
        | tail _ hmem => exact hcover c hmem
    | none =>
      obtain ⟨store', hrest, hmono, hcover⟩ := ih
        (storeSaveCell store filename col.id
          { answer := "[No response]", citations := [], model := model,
            timestamp := now, status := "error",
            error := some "No response from LLM" })
        (cnt + 1)
      refine ⟨store', ?_, ?_, ?_⟩
      · simp only [rowWiseColsGo, hresp, hrest]
        have he : cnt + 1 + rest.length = cnt + (rest.length + 1) := by omega
        simp only [List.length_cons, he]
      · intro k hk
        exact hmono k (goodCellAt_save_mono store filename col.id _
          (.inr rfl) k hk)
      · intro c hc
        cases hc with
        | head =>
          exact hmono _ (goodCellAt_save_self store filename col.id _
            (.inr rfl))
        | tail _ hmem => exact hcover c hmem

theorem rowWiseDocStep_spec (env : DocEnv) (llm : LLMEnv)
    (now model : String) (columns : List Column) (filename : String)
    (hstr : ∀ rec resps, dictGet env filename = some rec →
      complete_row_wise llm rec.text
        (columns.map (fun c => (c.id, c.question))) filename = .ok resps →
      ∀ q v, dictGet resps q = some v → ∃ s, v = .str s)
    (acc : ProjectStore × ExecutionProgress) :
    (rowWiseDocStep env llm now model columns acc filename).2.completed_cells
      = acc.2.completed_cells + columns.length ∧
    (∀ k, goodCellAt acc.1 k →
      goodCellAt (rowWiseDocStep env llm now model columns acc filename).1 k) ∧
    (∀ rec resps, dictGet env filename = some rec →
      complete_row_wise llm rec.text
        (columns.map (fun c => (c.id, c.question))) filename = .ok resps →
      ∀ c ∈ columns,
        goodCellAt (rowWiseDocStep env llm now model columns acc filename).1
          (cellKey filename c.id)) := by
  cases hd : getDocument env filename with
  | error e =>
    have hnone : dictGet env filename = none := getDocument_error env filename e hd
    have hstep : rowWiseDocStep env llm now model columns acc filename =
        (acc.1, { acc.2 with
          completed_cells := acc.2.completed_cells + 0 + columns.length,
          errors := acc.2.errors ++ [filename ++ ": " ++ e] }) := by
      unfold rowWiseDocStep
      rw [hd]
    rw [hstep]
    refine ⟨?_, fun k h => h, ?_⟩
    · show acc.2.completed_cells + 0 + columns.length
        = acc.2.completed_cells + columns.length
      omega
    · intro rec resps hget
      rw [hnone] at hget
      exact absurd hget (by simp)
  | ok doc =>
    have hdoc : dictGet env filename = some doc :=
      (getDocument_ok env filename doc).mp hd
    cases hcw : complete_row_wise llm doc.text
        (columns.map (fun c => (c.id, c.question))) filename with
    | error e =>
      have hstep : rowWiseDocStep env llm now model columns acc filename =
          (acc.1, { acc.2 with
            completed_cells := acc.2.completed_cells + 0 + columns.length,
            errors := acc.2.errors ++ [filename ++ ": " ++ e] }) := by
        unfold rowWiseDocStep
        rw [hd]
        dsimp only
        rw [hcw]
      rw [hstep]
      refine ⟨?_, fun k h => h, ?_⟩
      · show acc.2.completed_cells + 0 + columns.length
          = acc.2.completed_cells + columns.length
        omega
      · intro rec resps hget hcw'
        rw [hdoc] at hget
        have hrec : rec = doc := (Option.some.inj hget).symm
        rw [hrec] at hcw'
        rw [hcw'] at hcw
        exact absurd hcw (by simp)
    | ok responses =>
      have hresp := hstr doc responses hdoc hcw
      obtain ⟨store', hgo, hmono, hcover⟩ :=
        rowWiseColsGo_ok env now model filename doc hdoc responses hresp
          columns acc.1 0
      have hstep : rowWiseDocStep env llm now model columns acc filename =
          (store', { acc.2 with
            completed_cells := acc.2.completed_cells + (0 + columns.length) }) := by
        unfold rowWiseDocStep
        rw [hd]
        dsimp only
        rw [hcw]
        dsimp only
        rw [hgo]
      rw [hstep]
      refine ⟨?_, hmono, ?_⟩
      · show acc.2.completed_cells + (0 + columns.length)
          = acc.2.completed_cells + columns.length
        omega
      · intro rec resps hget hcw' c hc
        exact hcover c hc

theorem rowWiseFold_good (env : DocEnv) (llm : LLMEnv)
    (now model : String) (columns : List Column)
    (hstr : ∀ d rec resps, dictGet env d = some rec →
      complete_row_wise llm rec.text
        (columns.map (fun c => (c.id, c.question))) d = .ok resps →
      ∀ q v, dictGet resps q = some v → ∃ s, v = .str s) :
    ∀ (documents : List String) (store : ProjectStore)
      (progress : ExecutionProgress),
      (documents.foldl (rowWiseDocStep env llm now model columns)
        (store, progress)).2.completed_cells
        = progress.completed_cells + documents.length * columns.length ∧
      (∀ k, goodCellAt store k →
        goodCellAt (documents.foldl (rowWiseDocStep env llm now model columns)
          (store, progress)).1 k) ∧
      (∀ d ∈ documents, ∀ rec resps, dictGet env d = some rec →
        complete_row_wise llm rec.text
          (columns.map (fun c => (c.id, c.question))) d = .ok resps →
        ∀ c ∈ columns,
          goodCellAt (documents.foldl (rowWiseDocStep env llm now model columns)
            (store, progress)).1 (cellKey d c.id)) := by
  intro documents
  induction documents with
  | nil =>
    intro store progress
    exact ⟨by simp, fun k h => h, by simp⟩
  | cons d rest ih =>
    intro store progress
    obtain ⟨hcnt, hmono, hcover⟩ :=
      rowWiseDocStep_spec env llm now model columns d (hstr d) (store, progress)
    obtain ⟨ihcnt, ihmono, ihcover⟩ :=
      ih (rowWiseDocStep env llm now model columns (store, progress) d).1
        (rowWiseDocStep env llm now model columns (store, progress) d).2
    rw [Prod.mk.eta] at ihcnt ihmono ihcover
    rw [List.foldl_cons]
    refine ⟨?_, ?_, ?_⟩
    · rw [ihcnt, hcnt, List.length_cons, Nat.succ_mul]
      dsimp only
      generalize rest.length * columns.length = R
      omega
    · intro k hk
      exact ihmono k (hmono k hk)
    · intro d' hd' rec resps hget hcw'
      cases hd' with
      | head =>
        intro c hc
        exact ihmono _ (hcover rec resps hget hcw' c hc)
      | tail _ hmem =>
        exact ihcover d' hmem rec resps hget hcw'

theorem length_prod_cells (documents : List String) (cols : List Column) :
    (documents.flatMap (fun d => cols.map (fun c => (d, c)))).length
      = documents.length * cols.length := by
  induction documents with
  | nil => simp
  | cons d rest ih =>
    simp only [List.flatMap_cons, List.length_append, List.length_map, ih,
      List.length_cons, Nat.succ_mul]
    exact Nat.add_comm _ _

/-! ## Claim theorems -/

/-- **C1 (divergence evidence).** Evaluating `get_document_text` on a
pdf document at each recompute path (cache miss, stale mtime, and
`force_refresh`): the Extraction Record that is returned and persisted
carries `mtime` and `filename` but NO `extraction_method`, NO
`extraction_version` and NO `position_mappings` — `_extract_pdf` writes
none of them and `DocumentProcessor` never invokes the Position Mapper
(the repo's own `test_position_mapping.py` expects all three fields and
a `doc_processor.position_mapper` attribute). -/
theorem pdf_record_missing_fields :
    ∃ rec cache',
      get_document_text pdfDisk [] "report.pdf" false = .ok (rec, cache') ∧
      get_document_text pdfDisk staleCache "report.pdf" false =
        .ok (rec, dictSet staleCache "report.pdf" rec) ∧
      get_document_text pdfDisk staleCache "report.pdf" true =
        .ok (rec, dictSet staleCache "report.pdf" rec) ∧
      rec.extraction_method = none ∧
      rec.extraction_version = none ∧
      rec.position_mappings = none ∧
      rec.mtime = some 7 ∧
      rec.filename = some "report.pdf" ∧
      rec.text = "hello pdf page" ∧
      dictGet cache' "report.pdf" = some rec := by
  exact ⟨_, _, rfl, rfl, rfl, rfl, rfl, rfl, rfl, rfl, by decide, rfl⟩

/-- **C2 counterexample.** One row-wise document and one column with
the LLM provider down: `execute_all` succeeds with `completed_cells =
1` (the document-level `except` counts the document's whole column
count) and one aggregate error message, yet NO Cell Result — completed
or error — is persisted under the key `d.txt:col_a`.  This refutes "a
Cell Result ... has been persisted for every one of the D*C keys" for
row-wise mode. -/
theorem execute_all_row_wise_cex :
    ∃ r, execute_all envD llmDown "t2" ["d.txt"] none storeRW = .ok r ∧
      r.2.completed_cells = 1 ∧
      r.2.errors = ["d.txt: LLM unavailable"] ∧
      ¬ goodCellAt r.1 (cellKey "d.txt" "col_a") := by
  refine ⟨_, rfl, rfl, rfl, ?_⟩
  rintro ⟨res, v, hres, hget, -⟩
  injection hres with h
  rw [← h] at hget
  simp [dictGet, List.find?] at hget

/-- **C2.** Full-matrix execution over `D` documents and `C` columns.
Parallel mode satisfies the claim in full: whenever `execute_all`
returns, `completed_cells = D*C` and a completed-or-error Cell Result
is persisted under every `filename:column_id` key, however many LLM
calls failed.  Row-wise mode satisfies it only conditionally: provided
every successful row-wise LLM call assigns string contents (a
non-string content raises mid-column-loop, over-counting), the count
`completed_cells = D*C` holds, but per-key persistence is guaranteed
only for documents whose extraction and row-wise LLM call both
succeeded — a document-level failure counts all of that document's
cells while persisting none of them. -/
theorem execute_all_cells_spec (env : DocEnv) (llm : LLMEnv)
    (now : String) (documents : List String) (model? : Option String)
    (store : ProjectStore) (config : ProjectConfig)
    (hcfg : store.configFile = some config)
    (r : ProjectStore × ExecutionProgress) :
    (config.execution_mode ≠ "row_wise" →
      execute_all env llm now documents model? store = .ok r →
      r.2.completed_cells = documents.length * config.columns.length ∧
      ∀ d ∈ documents, ∀ c ∈ config.columns,
        goodCellAt r.1 (cellKey d c.id)) ∧
    (config.execution_mode = "row_wise" →
      (∀ d rec resps, dictGet env d = some rec →
        complete_row_wise llm rec.text
          (config.columns.map (fun c => (c.id, c.question))) d = .ok resps →
        ∀ q v, dictGet resps q = some v → ∃ s, v = .str s) →
      execute_all env llm now documents model? store = .ok r →
      r.2.completed_cells = documents.length * config.columns.length ∧
      ∀ d ∈ documents, ∀ rec resps, dictGet env d = some rec →
        complete_row_wise llm rec.text
          (config.columns.map (fun c => (c.id, c.question))) d = .ok resps →
        ∀ c ∈ config.columns, goodCellAt r.1 (cellKey d c.id)) := by
  constructor
  · intro hmode hex
    unfold execute_all at hex
    rw [hcfg] at hex
    dsimp only at hex
    rw [if_neg hmode] at hex
    unfold execute_parallel at hex
    dsimp only at hex
    obtain ⟨hcnt, hmono, hcover⟩ := parallelFold_good env llm now
      (model?.getD config.model)
      (documents.flatMap (fun d => config.columns.map (fun c => (d, c))))
      store
      { total_cells := documents.length * config.columns.length,
        completed_cells := 0, current_phase := "processing_cells",
        errors := [] }
    split at hex
    · exact absurd hex (by simp)
    · rename_i store2 heq
      injection hex with h
      constructor
      · rw [← h]
        dsimp only
        rw [hcnt, length_prod_cells]
        exact Nat.zero_add _
      · intro d hd c hc
        have hgood := hcover (d, c)
          (List.mem_flatMap.mpr ⟨d, hd, List.mem_map.mpr ⟨c, hc, rfl⟩⟩)
        have hfinal := generate_summaries_preserves env llm now config
          documents (model?.getD config.model) _ store2 heq _ hgood
        rw [← h]
        exact hfinal
  · intro hmode hstr hex
    unfold execute_all at hex
    rw [hcfg] at hex
    dsimp only at hex
    rw [if_pos hmode] at hex
    unfold execute_row_wise at hex
    dsimp only at hex
    obtain ⟨hcnt, hmono, hcover⟩ := rowWiseFold_good env llm now
      (model?.getD config.model) config.columns hstr documents store
      { total_cells := documents.length * config.columns.length,
        completed_cells := 0, current_phase := "processing_rows",
        errors := [] }
    split at hex
    · exact absurd hex (by simp)
    · rename_i store2 heq
      injection hex with h
      constructor
      · rw [← h]
        dsimp only
        rw [hcnt]
        exact Nat.zero_add _
      · intro d hd rec resps hget hcw c hc
        have hgood := hcover d hd rec resps hget hcw c hc
        have hfinal := generate_summaries_preserves env llm now config
          documents (model?.getD config.model) _ store2 heq _ hgood
        rw [← h]
        exact hfinal

/-- **C2 witness.** One parallel-mode document and one column with a
working LLM: `execute_all` returns `completed_cells = 1 = D*C` and a
completed-or-error Cell Result persisted under `d.txt:col_a`. -/
theorem execute_all_cells_spec_witness :
    ∃ r, execute_all envD llmOk "t2" ["d.txt"] none storeA = .ok r ∧
      r.2.completed_cells = 1 ∧ goodCellAt r.1 (cellKey "d.txt" "col_a") := by
  obtain ⟨r, hr⟩ : ∃ r, execute_all envD llmOk "t2" ["d.txt"] none storeA
      = .ok r := ⟨_, rfl⟩
  have h := (execute_all_cells_spec envD llmOk "t2" ["d.txt"] none storeA
    cfgA rfl r).1 (by decide) hr
  refine ⟨r, hr, ?_, ?_⟩
  · rw [h.1]
    decide
  · exact h.2 "d.txt" (by decide) colA (by decide)

/-- **C3 counterexample.** The claim "for every Citation produced by
`parse_response` the invariant `char_start ≤ char_end` holds" is false:
on the cached document `d.txt`, the positional marker `[[cite:5:3]]`
copies its offsets verbatim, producing a resolved citation with
`char_start = 5 > 3 = char_end` (and page 1, i.e. not the unresolved
sentinel). -/
theorem parse_response_invariant_cex :
    ∃ pr, parse_response envD "[[cite:5:3]]" "d.txt" = .ok pr ∧
      ∃ c, pr.citations = [c] ∧ c.char_start = 5 ∧ c.char_end = 3 ∧
        c.page = .int 1 ∧ ¬ c.char_start ≤ c.char_end := by
  refine ⟨_, rfl, _, rfl, rfl, rfl, rfl, by decide⟩

/-- **C3 (amended).** For every citation produced by `parse_response`:
a quoted-marker citation satisfies `char_start ≤ char_end`; a
positional-marker citation copies the marker's `start`/`end` verbatim
into `char_start`/`char_end` (so the invariant holds there exactly when
the marker's offsets are ordered); and — provided every page span of
the cached record carries a page number `≥ 1` — a citation is
unresolved exactly when its `page` is `0`, in which case it carries its
placeholder context (`"[Unverified quote: ...]"` or
`"[Unable to resolve citation]"`). -/
theorem parse_response_citations_spec (env : DocEnv)
    (response_text source_file : String)
    (hpages : ∀ rec, dictGet env source_file = some rec →
      ∀ sp ∈ rec.pages, ∀ n, sp.pageNum = some n → 1 ≤ n)
    (pr : ParsedResponse)
    (hok : parse_response env response_text source_file = .ok pr) :
    ∃ qs ps, pr.citations = qs ++ ps ∧
      (∀ c ∈ qs, c.char_start ≤ c.char_end) ∧
      (∀ c ∈ ps, ∃ k a b, c = mkPosCitation env source_file k a b ∧
        c.char_start = a ∧ c.char_end = b) ∧
      (∀ c ∈ qs ++ ps, c.page = .int 0 →
        c.context = "[Unverified quote: " ++ pyTake 50 c.text ++ "...]" ∨
        c.context = "[Unable to resolve citation]") ∧
      (∀ c ∈ qs ++ ps, c.page = .int 0 ∨
        (∃ n, c.page = .int n ∧ 1 ≤ n) ∨ (∃ s, c.page = .str s)) := by
  unfold parse_response at hok
  dsimp only at hok
  cases hq : (findQuoteMatches response_text).foldlM
      (quoteStep env source_file
        (getExtractionMetadata env source_file).1
        (getExtractionMetadata env source_file).2)
      { citations := [], text := response_text, counter := 1 } with
  | error e => rw [hq] at hok; exact absurd hok (by simp)
  | ok st1 =>
    rw [hq] at hok
    dsimp only at hok
    obtain ⟨qs, hqs, hqprops⟩ :=
      quoteFold_props env source_file
        (getExtractionMetadata env source_file).1
        (getExtractionMetadata env source_file).2 hpages
        (findQuoteMatches response_text)
        { citations := [], text := response_text, counter := 1 } st1 hq
    obtain ⟨ps, hps, hpprops⟩ :=
      posFold_props env source_file (findPosMatches st1.text) st1
    have hcit : pr.citations = qs ++ ps := by
      have hpr : pr =
          { text := ((findPosMatches st1.text).foldl
              (posStep env source_file) st1).text,
            citations := ((findPosMatches st1.text).foldl
              (posStep env source_file) st1).citations,
            raw_text := response_text } := by
        cases hok; rfl
      rw [hpr]
      show ((findPosMatches st1.text).foldl (posStep env source_file) st1).citations
        = qs ++ ps
      rw [hps, hqs]
      simp
    refine ⟨qs, ps, hcit, ?_, ?_, ?_, ?_⟩
    · intro c hc
      exact (hqprops c hc).1
    · intro c hc
      obtain ⟨k, a, b, hcab⟩ := hpprops c hc
      refine ⟨k, a, b, hcab, ?_, ?_⟩
      · rw [hcab]
        exact (mkPosCitation_props env source_file k a b hpages).1
      · rw [hcab]
        exact (mkPosCitation_props env source_file k a b hpages).2.1
    · intro c hc h0
      cases List.mem_append.mp hc with
      | inl hcq => exact (hqprops c hcq).2.1 h0
      | inr hcp =>
        obtain ⟨k, a, b, hcab⟩ := hpprops c hcp
        rw [hcab] at h0 ⊢
        exact (mkPosCitation_props env source_file k a b hpages).2.2.1 h0
    · intro c hc
      cases List.mem_append.mp hc with
      | inl hcq => exact (hqprops c hcq).2.2
      | inr hcp =>
        obtain ⟨k, a, b, hcab⟩ := hpprops c hcp
        rw [hcab]
        exact (mkPosCitation_props env source_file k a b hpages).2.2.2

/-- **C3 witness**: a response with one resolvable quote, one
unresolvable quote and one positional marker against `d.txt`. -/
theorem parse_response_citations_spec_witness :
    ∃ pr, parse_response envD
        "A [[cite:\x22hello world\x22]] B [[cite:\x22zzz\x22]] C [[cite:0:5]]"
        "d.txt" = .ok pr ∧
      ∃ qs ps, pr.citations = qs ++ ps ∧
        (∀ c ∈ qs, c.char_start ≤ c.char_end) ∧
        (∀ c ∈ ps, ∃ k a b, c = mkPosCitation envD "d.txt" k a b ∧
          c.char_start = a ∧ c.char_end = b) ∧
        (∀ c ∈ qs ++ ps, c.page = .int 0 →
          c.context = "[Unverified quote: " ++ pyTake 50 c.text ++ "...]" ∨
          c.context = "[Unable to resolve citation]") ∧
        (∀ c ∈ qs ++ ps, c.page = .int 0 ∨
          (∃ n, c.page = .int n ∧ 1 ≤ n) ∨ (∃ s, c.page = .str s)) := by
  obtain ⟨pr, hpr⟩ : ∃ pr, parse_response envD
      "A [[cite:\x22hello world\x22]] B [[cite:\x22zzz\x22]] C [[cite:0:5]]"
      "d.txt" = .ok pr := ⟨_, rfl⟩
  refine ⟨pr, hpr, parse_response_citations_spec envD _ "d.txt" ?_ pr hpr⟩
  intro rec hrec
  have hr : rec = recD := by
    have h2 : some recD = some rec := hrec
    cases h2
    rfl
  rw [hr]
  decide

/-- **C4 counterexample.** The claim "if JSON decoding of the response
fails entirely, every requested question id receives the full raw
response text" is false: for a response containing no `\x7b` at all —
which no JSON decoder accepts — `complete_row_wise` returns the
pre-initialized empty dict, so `q1` receives nothing. -/
theorem complete_row_wise_fallback_cex :
    rowWiseParse (fun _ => .error ()) "no json here" ["q1"] = .ok [] ∧
    dictGet ([] : List (String × PyVal)) "q1" = none ∧
    (fun _ : String => (Except.error () : Except Unit PyVal)) "no json here" =
      .error () :=
  ⟨rfl, rfl, rfl⟩

/-- **C4 (amended).** `complete_row_wise`'s response handling: when the
response contains no `\x7b` (so no JSON block is even attempted), the
returned mapping is empty; when a `\x7b...\x7d` block exists but fails
to JSON-decode, every requested question id receives the full raw
response text; when the block decodes to an object whose `answers`
value is an object (or is absent, decoding as the empty object), each
requested id absent from `answers` receives the literal
`"[No answer provided]"` and each present id its answer — and none of
these paths raises. -/
theorem complete_row_wise_fallbacks (decode : String → Except Unit PyVal)
    (content : String) (questions : List String) :
    (listFind content.data ['\x7b'] = none →
      rowWiseParse decode content questions = .ok []) ∧
    (∀ i j, listFind content.data ['\x7b'] = some i →
      lastIdxOf content.data '\x7d' = some j → i < j + 1 →
      decode ⟨(content.data.take (j + 1)).drop i⟩ = .error () →
      rowWiseParse decode content questions =
        .ok (questions.foldl (fun res q => dictSet res q (.str content)) [])) ∧
    (∀ i j data answers, listFind content.data ['\x7b'] = some i →
      lastIdxOf content.data '\x7d' = some j → i < j + 1 →
      decode ⟨(content.data.take (j + 1)).drop i⟩ = .ok (.obj data) →
      (dictGet data "answers").getD (.obj []) = .obj answers →
      rowWiseParse decode content questions =
        .ok (questions.foldl (rowWiseAssignSpec answers) [])) := by
  refine ⟨?_, ?_, ?_⟩
  · intro h
    unfold rowWiseParse
    rw [h]
    dsimp only
    rw [if_neg]
    intro hcon
    have h1 := hcon.1
    norm_num at h1
  · intro i j hi hj hij hd
    unfold rowWiseParse
    rw [hi, hj]
    dsimp only
    rw [if_pos (by constructor <;> omega)]
    have e1 : ((i : Int)).toNat = i := by omega
    have e2 : ((j : Int) + 1).toNat = j + 1 := by omega
    rw [e1, e2, hd]
  · intro i j data answers hi hj hij hd hans
    unfold rowWiseParse
    rw [hi, hj]
    dsimp only
    rw [if_pos (by constructor <;> omega)]
    have e1 : ((i : Int)).toNat = i := by omega
    have e2 : ((j : Int) + 1).toNat = j + 1 := by omega
    rw [e1, e2, hd]
    dsimp only [pyValGet]
    rw [hans]
    exact rowWiseLoop_obj answers questions []

/-- **C4 witness**: a response embedding the decodable block
`\x7b"ok"\x7d` with an answer for `q1` only: `q1` passes through,
`q2` gets the placeholder. -/
theorem complete_row_wise_fallbacks_witness :
    rowWiseParse decodeW "x \x7b\x22ok\x22\x7d y" ["q1", "q2"] =
      .ok (["q1", "q2"].foldl
        (rowWiseAssignSpec [("q1", .obj [("answer", .str "A1")])]) []) ∧
    rowWiseParse decodeW "x \x7b\x22ok\x22\x7d y" ["q1", "q2"] =
      .ok [("q1", .str "A1"), ("q2", .str "[No answer provided]")] := by
  constructor
  · exact (complete_row_wise_fallbacks decodeW "x \x7b\x22ok\x22\x7d y"
      ["q1", "q2"]).2.2 2 7 _ _ rfl rfl (by omega) rfl rfl
  · rfl

/-- **C5.** `aggregate_citations` deduplicates by
`"<source_file>:<first 50 chars of text>"`, keeping the first occurrence
of each key in encounter order and renumbering sequentially as
`cite_1, cite_2, ...`; in particular two citations on the same source
file whose texts agree on the first 50 characters collapse into one. -/
theorem aggregate_citations_spec :
    (∀ responses : List ParsedResponse,
      aggregate_citations responses =
        specAggregate (responses.flatMap (fun r => r.citations))) ∧
    (∀ (t rt : String) (c1 c2 : Citation),
      c1.source_file = c2.source_file →
      pyTake 50 c1.text = pyTake 50 c2.text →
      aggregate_citations [{ text := t, citations := [c1, c2], raw_text := rt }] =
        [aggRenumber 1 c1]) := by
  constructor
  · intro responses
    unfold aggregate_citations specAggregate
    rw [aggFold_bind responses ([], []),
      aggFold_spec (responses.flatMap (fun r => r.citations)) [] []]
    simp
  · intro t rt c1 c2 hsf htext
    have hk : aggKey c2 = aggKey c1 := by
      unfold aggKey
      rw [← hsf, ← htext]
    unfold aggregate_citations
    simp only [List.foldl_cons, List.foldl_nil]
    have h1 : aggStep ([], []) c1 = ([aggKey c1], [aggRenumber 1 c1]) := by
      unfold aggStep
      rw [if_neg (by simp)]
      rfl
    rw [h1]
    have h2 : aggStep ([aggKey c1], [aggRenumber 1 c1]) c2 =
        ([aggKey c1], [aggRenumber 1 c1]) := by
      unfold aggStep
      rw [if_pos (by simp [hk])]
    rw [h2]

/-- **C5 witness**: two citations on `d.txt` whose texts differ only
beyond character 50 collapse into one `cite_1` entry. -/
theorem aggregate_citations_spec_witness :
    aggCit1.source_file = aggCit2.source_file ∧
    pyTake 50 aggCit1.text = pyTake 50 aggCit2.text ∧
    aggregate_citations [{ text := "t", citations := [aggCit1, aggCit2],
                           raw_text := "t" }] = [aggRenumber 1 aggCit1] :=
  ⟨rfl, by decide,
   aggregate_citations_spec.2 "t" "t" aggCit1 aggCit2 rfl (by decide)⟩

/-- **C8.** `get_context_around` on a cached document returns the
substring of the text from `char_start - context_chars` to
`char_end + context_chars`, both clamped to the text bounds, prefixed
with `"..."` exactly when the window excludes a prefix of the text and
suffixed with `"..."` exactly when it excludes a suffix of the text. -/
theorem get_context_around_spec (env : DocEnv) (filename : String)
    (rec : ExtractionRecord) (cs ce cc : Nat)
    (h : dictGet env filename = some rec) :
    ∃ mid : String,
      mid.data = (rec.text.data.take (min rec.text.length (ce + cc))).drop
        (((cs : Int) - (cc : Int)).toNat) ∧
      get_context_around_doc env filename cs ce cc = .ok
        ((if 0 < (cs : Int) - (cc : Int) then "..." else "") ++ mid ++
         (if ce + cc < rec.text.length then "..." else "")) := by
  have hdoc : getDocument env filename = .ok rec := by
    unfold getDocument
    rw [h]
  have hnat : ((cs : Int) - (cc : Int)).toNat = cs - cc := by omega
  refine ⟨pySlice rec.text (cs - cc) (min rec.text.length (ce + cc)), ?_, ?_⟩
  · rw [hnat]
    unfold pySlice
    show (rec.text.data.drop (cs - cc)).take
        (min rec.text.length (ce + cc) - (cs - cc)) = _
    rw [List.drop_take]
  · unfold get_context_around_doc
    rw [hdoc]
    show Except.ok (get_context_around rec cs ce cc) = _
    unfold get_context_around
    dsimp only
    have e1 : (if 0 < cs - cc then ("..." : String) else "") =
        (if 0 < (cs : Int) - (cc : Int) then ("..." : String) else "") := by
      by_cases hcase : 0 < cs - cc
      · rw [if_pos hcase, if_pos (by omega)]
      · rw [if_neg hcase, if_neg (by omega)]
    have e2 : (if min rec.text.length (ce + cc) < rec.text.length
          then ("..." : String) else "") =
        (if ce + cc < rec.text.length then ("..." : String) else "") := by
      by_cases hcase : ce + cc < rec.text.length
      · rw [if_pos (by omega), if_pos hcase]
      · rw [if_neg (by omega), if_neg hcase]
    rw [e1, e2]

/-- **C8 witness**: on the 23-character text of `d.txt`, the window
`13-4 .. 18+4` is strictly inside the text, so both ellipses appear
around `"ld, hello doc"`. -/
theorem get_context_around_spec_witness :
    dictGet envD "d.txt" = some recD ∧
    get_context_around_doc envD "d.txt" 13 18 4 =
      .ok ("..." ++ "ld, hello doc" ++ "...") := by
  refine ⟨rfl, ?_⟩
  obtain ⟨mid, hmid, hres⟩ := get_context_around_spec envD "d.txt" recD 13 18 4 rfl
  rw [hres]
  have hmid' : mid = "ld, hello doc" := by
    cases mid with
    | mk d =>
      simp only at hmid
      rw [hmid]
      decide
  rw [hmid']
  exact congrArg Except.ok (by decide)

/-- **C6.** `reorder_columns` rebuilds the column list with the supplied
ids first in the given order (silently ignoring ids that do not exist),
followed by every existing column not present in the supplied list, in
their prior relative order.  (Column ids are generated as `col_` plus
8 hex characters, hence pairwise distinct.) -/
theorem reorder_columns_spec (columns : List Column) (column_ids : List String)
    (hids : columns.Pairwise (fun a b => a.id ≠ b.id)) :
    reorder_columns columns column_ids =
      column_ids.filterMap (fun cid => columns.find? (fun c => c.id = cid)) ++
      columns.filter (fun c => ¬ column_ids.contains c.id) := by
  unfold reorder_columns
  rw [colMapOf_of_nodup columns hids]
  congr 1
  · apply List.filterMap_congr
    intro cid _
    rw [dictGet_map_pair]
  · rw [List.filter_map]
    rw [List.map_map]
    have : ((fun p : String × Column => p.2) ∘ fun c : Column => (c.id, c)) =
        id := rfl
    rw [this, List.map_id]
    congr 1

/-- **C6 witness**: columns `[A, B, C]` reordered with input `[C, A]`
yield `[C, A, B]`. -/
theorem reorder_columns_spec_witness :
    reorder_columns [colA, colB, colC] ["col_c", "col_a"] =
      ["col_c", "col_a"].filterMap
        (fun cid => [colA, colB, colC].find? (fun c => c.id = cid)) ++
      [colA, colB, colC].filter (fun c => ¬ ["col_c", "col_a"].contains c.id) ∧
    reorder_columns [colA, colB, colC] ["col_c", "col_a"] = [colC, colA, colB] :=
  ⟨reorder_columns_spec _ _ (by decide), by decide⟩

/-- **C7.** `delete_column` removes from the results exactly the cells
whose key ends with `":<deleted column id>"` and the deleted column's
`column_summaries` entry, leaving every cell of every other column
(column ids contain no `':'`), every row summary, and the overall
summary unchanged. -/
theorem delete_column_frame (store : ProjectStore) (config : ProjectConfig)
    (results : ProjectResults) (column_id now : String)
    (hc : store.configFile = some config)
    (hr : store.resultsFile = some results) :
    ∃ results', (delete_column store column_id now).1.resultsFile = some results' ∧
      results'.cells = results.cells.filter
        (fun p => ¬ pyEndsWith p.1 (":" ++ column_id)) ∧
      (∀ f, dictGet results'.cells (cellKey f column_id) = none) ∧
      (∀ f c, ':' ∉ c.data → ':' ∉ column_id.data → c ≠ column_id →
        dictGet results'.cells (cellKey f c) = dictGet results.cells (cellKey f c)) ∧
      results'.row_summaries = results.row_summaries ∧
      results'.overall_summary = results.overall_summary ∧
      dictGet results'.column_summaries column_id = none ∧
      (∀ c, c ≠ column_id →
        dictGet results'.column_summaries c = dictGet results.column_summaries c) := by
  unfold delete_column
  rw [hc, hr]
  refine ⟨_, rfl, rfl, ?_, ?_, rfl, rfl, ?_, ?_⟩
  · intro f
    exact dictGet_filter_drop results.cells
      (fun s => ¬ pyEndsWith s (":" ++ column_id)) (cellKey f column_id)
      (by simp [pyEndsWith_cellKey_self])
  · intro f c hcC hcid hne
    have hfalse : pyEndsWith (cellKey f c) (":" ++ column_id) = false := by
      cases hE : pyEndsWith (cellKey f c) (":" ++ column_id) with
      | false => rfl
      | true => exact absurd ((pyEndsWith_cellKey f c column_id hcC hcid).mp hE) hne
    exact dictGet_filter_keep results.cells
      (fun s => ¬ pyEndsWith s (":" ++ column_id)) (cellKey f c)
      (by simp [hfalse])
  · exact dictGet_dictPop_self _ _
  · intro c hne
    exact dictGet_dictPop_ne _ _ _ hne

/-- **C7 witness**: deleting `col_b` from a two-column results file
removes exactly the `col_b` cells and its column summary, and keeps the
`col_a` cell. -/
theorem delete_column_frame_witness :
    storeAB.configFile = some cfgAB ∧
    ∃ results',
      (delete_column storeAB "col_b" "t2").1.resultsFile = some results' ∧
      results'.cells = [("d.txt:col_a", resCell "x")] ∧
      dictGet results'.cells (cellKey "d.txt" "col_a") = some (resCell "x") := by
  refine ⟨rfl, ?_⟩
  obtain ⟨results', h1, h2, _h3, h4, _⟩ :=
    delete_column_frame storeAB cfgAB resultsAB "col_b" "t2" rfl rfl
  refine ⟨results', h1, ?_, ?_⟩
  · rw [h2]; decide
  · rw [h4 "d.txt" "col_a" (by decide) (by decide) (by decide)]; decide

/-- **C9.** The four result-saving operations perform no
project-existence check: with a missing project folder or a missing or
unreadable results file (both read back as no value), each succeeds and
writes a fresh results file containing only the saved entry. -/
theorem save_results_no_existence_check (f c : String) (r : CellResult) :
    save_cell_result none f c r = { cells := [(cellKey f c, r)] } ∧
    save_row_summary none f r = { row_summaries := [(f, r)] } ∧
    save_column_summary none c r = { column_summaries := [(c, r)] } ∧
    save_overall_summary none r = { overall_summary := some r } := by
  refine ⟨?_, ?_, ?_, rfl⟩ <;>
    simp [save_cell_result, save_row_summary, save_column_summary,
      setCell, dictSet]

/-- **C10.** `update_column` with a column id matching none of the
project's columns raises before any write: the store (including every
column's question and `updated_at`) is returned unchanged, with an
error outcome. -/
theorem update_column_atomic (store : ProjectStore) (config : ProjectConfig)
    (column_id question now : String)
    (hc : store.configFile = some config)
    (hmiss : ∀ col ∈ config.columns, col.id ≠ column_id) :
    (update_column store column_id question now).1 = store ∧
    (update_column store column_id question now).2 =
      .error ("Column '" ++ column_id ++ "' not found") := by
  have hany : config.columns.any (fun c => c.id = column_id) = false := by
    simp only [List.any_eq_false]
    intro c hcmem
    simpa using hmiss c hcmem
  have hres : update_column store column_id question now =
      (store, .error ("Column '" ++ column_id ++ "' not found")) := by
    unfold update_column
    rw [hc]
    dsimp only
    rw [if_neg (by simp [hany])]
  rw [hres]
  exact ⟨rfl, rfl⟩

/-- **C10 witness**: a concrete project with one column `col_a`, updated
with unknown id `col_zz`, is left untouched. -/
theorem update_column_atomic_witness :
    (update_column storeA "col_zz" "new question" "t2").1 = storeA ∧
    (update_column storeA "col_zz" "new question" "t2").2 =
      .error ("Column '" ++ "col_zz" ++ "' not found") :=
  update_column_atomic storeA cfgA "col_zz" "new question" "t2" rfl (by decide)

end DocMatrix
